import Mathlib

/-!
Verification of the cross-validation statistics-aggregation engine of
wnd-charm (FeatureSpacePredictionExperiment.py).

The Python source is shallowly embedded below.  Conventions:

* Python floats are modelled as rationals; the square root from math.sqrt
  and the one inside numpy.std are abstracted as a function parameter
  (sqrt : Rat -> Rat), since no claim depends on its values.
* Python dictionaries (collections.defaultdict included) are modelled as
  insertion-ordered association lists; dictionary iteration is modelled as
  iteration in insertion order.
* Raisable Python errors are modelled with Except PyErr; code that mutates
  attributes before a later statement raises is split into phase functions
  so that the already-mutated state stays observable.
* scipy.stats.linregress / scipy.stats.spearmanr are external collaborators
  and enter the embedding as oracle parameters returning Except values.
-/

/-- Python exception kinds raised or caught by the embedded code. -/
inductive PyErr where
  | zeroDivisionError
  | valueError
  | floatingPointError
deriving DecidableEq, Repr

/-- Lookup in an association list modelling a Python dict (first binding wins;
bindings are unique by construction of dictUpd). -/
def dictGet? {κ β : Type} [DecidableEq κ] : List (κ × β) → κ → Option β
  | [], _ => none
  | (k', v) :: rest, k => if k' = k then some v else dictGet? rest k

/-- Update of a Python (default)dict entry: applies f to the current value of
key k, or to the default d if the key is absent (in which case the new binding
is appended, as Python dict insertion does). -/
def dictUpd {κ β : Type} [DecidableEq κ] (m : List (κ × β)) (k : κ) (d : β) (f : β → β) :
    List (κ × β) :=
  match m with
  | [] => [(k, f d)]
  | (k', v) :: rest => if k' = k then (k', f v) :: rest else (k', v) :: dictUpd rest k d f

/-- Sum of all values of an association list with numeric values. -/
def dictValSum {κ : Type} (m : List (κ × Nat)) : Nat :=
  (m.map (·.2)).sum

theorem dictGet?_dictUpd_self {κ β : Type} [DecidableEq κ]
    (m : List (κ × β)) (k : κ) (d : β) (f : β → β) :
    dictGet? (dictUpd m k d f) k = some (f ((dictGet? m k).getD d)) := by
  induction m with
  | nil => simp [dictUpd, dictGet?]
  | cons hd tl ih =>
    obtain ⟨k', v⟩ := hd
    by_cases h : k' = k
    · simp [dictUpd, dictGet?, h]
    · simp [dictUpd, dictGet?, h, ih]

theorem dictGet?_dictUpd_ne {κ β : Type} [DecidableEq κ]
    (m : List (κ × β)) (k k₀ : κ) (d : β) (f : β → β) (h : k ≠ k₀) :
    dictGet? (dictUpd m k₀ d f) k = dictGet? m k := by
  induction m with
  | nil => simp [dictUpd, dictGet?, Ne.symm h]
  | cons hd tl ih =>
    obtain ⟨k', v⟩ := hd
    by_cases hk : k' = k₀
    · subst hk
      simp [dictUpd, dictGet?, Ne.symm h]
    · by_cases hk2 : k' = k <;> simp [dictUpd, dictGet?, hk, hk2, ih, h]

theorem dictValSum_dictUpd_add {κ : Type} [DecidableEq κ]
    (m : List (κ × Nat)) (k : κ) (c : Nat) :
    dictValSum (dictUpd m k 0 (· + c)) = dictValSum m + c := by
  induction m with
  | nil => simp [dictUpd, dictValSum]
  | cons hd tl ih =>
    obtain ⟨k', v⟩ := hd
    by_cases h : k' = k
    · simp [dictUpd, dictValSum, h]
      omega
    · simp [dictUpd, dictValSum, h] at ih ⊢
      omega

/-- Sum of the diagonal cells of a confusion matrix: the cells whose
ground-truth class name equals the predicted class name. -/
def diagTotal (m : List ((String × String) × Nat)) : Nat :=
  ((m.filter (fun e => e.1.1 = e.1.2)).map (·.2)).sum

theorem diagTotal_dictUpd (m : List ((String × String) × Nat))
    (g p : String) (c : Nat) :
    diagTotal (dictUpd m (g, p) 0 (· + c)) =
      diagTotal m + (if g = p then c else 0) := by
  induction m with
  | nil =>
    by_cases h : g = p <;> simp [dictUpd, diagTotal, h]
  | cons hd tl ih =>
    obtain ⟨⟨g', p'⟩, v⟩ := hd
    by_cases h : (g', p') = (g, p)
    · have hg : g' = g := congrArg Prod.fst h
      have hp : p' = p := congrArg Prod.snd h
      subst hg; subst hp
      by_cases hgp : g' = p' <;> simp [dictUpd, diagTotal, hgp] <;> omega
    · by_cases hgp : g' = p'
      · subst hgp
        simp only [Prod.mk.injEq] at h
        simp [dictUpd, diagTotal, h] at ih ⊢
        omega
      · simp only [Prod.mk.injEq] at h
        simp [dictUpd, diagTotal, h, hgp] at ih ⊢
        omega

theorem diagTotal_le_dictValSum (m : List ((String × String) × Nat)) :
    diagTotal m ≤ dictValSum m := by
  induction m with
  | nil => simp [diagTotal, dictValSum]
  | cons hd tl ih =>
    obtain ⟨⟨g, p⟩, v⟩ := hd
    by_cases h : g = p <;> simp [diagTotal, dictValSum, h] at ih ⊢ <;> omega

/-- All (row, column) pairs of the nested loop "for g in rows: for p in cols",
in loop order. -/
def listProd {α β : Type} (rows : List α) (cols : List β) : List (α × β) :=
  match rows with
  | [] => []
  | r :: rest => cols.map (fun c => (r, c)) ++ listProd rest cols

theorem mem_listProd {α β : Type} (rows : List α) (cols : List β) (x : α × β) :
    x ∈ listProd rows cols ↔ x.1 ∈ rows ∧ x.2 ∈ cols := by
  induction rows with
  | nil => simp [listProd]
  | cons r rest ih =>
    obtain ⟨a, b⟩ := x
    simp [listProd, ih]
    constructor
    · rintro (⟨hb, ha⟩ | ⟨ha, hb⟩)
      · exact ⟨Or.inl ha.symm, hb⟩
      · exact ⟨Or.inr ha, hb⟩
    · rintro ⟨ha | ha, hb⟩
      · exact Or.inl ⟨hb, ha.symm⟩
      · exact Or.inr ⟨ha, hb⟩

theorem nodup_listProd {α β : Type} (rows : List α) (cols : List β)
    (hr : rows.Nodup) (hc : cols.Nodup) : (listProd rows cols).Nodup := by
  induction rows with
  | nil => simp [listProd]
  | cons r rest ih =>
    simp only [listProd]
    rw [List.nodup_append]
    refine ⟨hc.map (fun a b hab => by simpa using congrArg Prod.snd hab), ih hr.of_cons, ?_⟩
    intro x hx hx2
    have h1 : x.1 = r := by
      obtain ⟨c, hc2, rfl⟩ := List.mem_map.mp hx
      rfl
    have h2 : x.1 ∈ rest := ((mem_listProd _ _ _).mp hx2).1
    rw [List.nodup_cons] at hr
    exact hr.1 (h1 ▸ h2)

/-- Effect on one key of folding dict updates over a duplicate-free list of
keys: the key's entry receives exactly its own update. -/
theorem dictGet?_foldl_dictUpd {κ β : Type} [DecidableEq κ]
    (L : List κ) (hL : L.Nodup) (f : κ → β → β) (d : β) (m : List (κ × β)) (k : κ) :
    dictGet? (L.foldl (fun acc x => dictUpd acc x d (f x)) m) k
      = if k ∈ L then some (f k ((dictGet? m k).getD d)) else dictGet? m k := by
  induction L generalizing m with
  | nil => simp
  | cons a L ih =>
    rw [List.nodup_cons] at hL
    by_cases hk : k = a
    · subst hk
      simp only [List.foldl_cons, List.mem_cons, true_or, if_true]
      rw [ih hL.2, if_neg hL.1, dictGet?_dictUpd_self]
    · simp only [List.foldl_cons, List.mem_cons]
      rw [ih hL.2, dictGet?_dictUpd_ne _ _ _ _ _ hk]
      by_cases hmem : k ∈ L <;> simp [hmem, hk]

/-- One classified sample, mirroring the SingleSampleClassification fields the
aggregation code reads (SingleSamplePrediction.py is an external input type;
fields follow the data model of the spec). -/
structure SampleC where
  sourceFilepath : String
  groundTruthClassName : String
  predictedClassName : String
  marginalProbabilities : List Rat
  normalizationFactor : Rat
  batchNumber : Nat
deriving DecidableEq, Repr

/-- Modelled from the spec: per-split confusion-matrix count of a
FeatureSpaceClassification batch (FeatureSpacePrediction.py is not under
src/, only its consumer is).  The count of a (ground-truth, predicted) cell
is the number of the split's sample predictions carrying those class names. -/
def sampleCount (samples : List SampleC) (g p : String) : Nat :=
  (samples.filter
    (fun s => s.groundTruthClassName = g ∧ s.predictedClassName = p)).length

theorem sampleCount_cons (s : SampleC) (ss : List SampleC) (g p : String) :
    sampleCount (s :: ss) g p =
      (if s.groundTruthClassName = g ∧ s.predictedClassName = p then 1 else 0)
        + sampleCount ss g p := by
  by_cases h : s.groundTruthClassName = g ∧ s.predictedClassName = p <;>
    simp [sampleCount, h] <;> omega

theorem sum_indicator_nodup {α : Type} [DecidableEq α]
    (L : List α) (hL : L.Nodup) (x : α) :
    ((L.map (fun a => if a = x then 1 else 0)).sum : Nat)
      = if x ∈ L then 1 else 0 := by
  induction L with
  | nil => simp
  | cons a L ih =>
    rw [List.nodup_cons] at hL
    by_cases h : a = x
    · subst h
      simp [if_neg hL.1, ih hL.2]
    · have : ¬ x = a := fun h2 => h h2.symm
      simp [h, this, ih hL.2]

theorem sum_sampleCount_le (L : List (String × String)) (hL : L.Nodup)
    (samples : List SampleC) :
    (L.map (fun gp => sampleCount samples gp.1 gp.2)).sum ≤ samples.length := by
  induction samples with
  | nil => simp [sampleCount]
  | cons s ss ih =>
    have hsplit : (L.map (fun gp => sampleCount (s :: ss) gp.1 gp.2)).sum
        = (L.map (fun gp => if gp = (s.groundTruthClassName, s.predictedClassName)
              then 1 else 0)).sum
          + (L.map (fun gp => sampleCount ss gp.1 gp.2)).sum := by
      rw [← List.sum_map_add]
      refine congrArg List.sum (List.map_congr_left (fun gp _ => ?_))
      rw [sampleCount_cons]
      congr 1
      by_cases h : gp = (s.groundTruthClassName, s.predictedClassName)
      · subst h
        simp
      · rw [if_neg, if_neg h]
        intro ⟨h1, h2⟩
        exact h (Prod.ext h1.symm h2.symm)
    rw [hsplit, sum_indicator_nodup L hL]
    by_cases h : (s.groundTruthClassName, s.predictedClassName) ∈ L <;>
      simp [h] <;> omega

theorem sum_sampleCount_eq (L : List (String × String)) (hL : L.Nodup)
    (samples : List SampleC)
    (hcov : ∀ s ∈ samples, (s.groundTruthClassName, s.predictedClassName) ∈ L) :
    (L.map (fun gp => sampleCount samples gp.1 gp.2)).sum = samples.length := by
  induction samples with
  | nil => simp [sampleCount]
  | cons s ss ih =>
    have hsplit : (L.map (fun gp => sampleCount (s :: ss) gp.1 gp.2)).sum
        = (L.map (fun gp => if gp = (s.groundTruthClassName, s.predictedClassName)
              then 1 else 0)).sum
          + (L.map (fun gp => sampleCount ss gp.1 gp.2)).sum := by
      rw [← List.sum_map_add]
      refine congrArg List.sum (List.map_congr_left (fun gp _ => ?_))
      rw [sampleCount_cons]
      congr 1
      by_cases h : gp = (s.groundTruthClassName, s.predictedClassName)
      · subst h
        simp
      · rw [if_neg, if_neg h]
        intro ⟨h1, h2⟩
        exact h (Prod.ext h1.symm h2.symm)
    rw [hsplit, sum_indicator_nodup L hL,
      if_pos (hcov s (List.mem_cons_self s ss)),
      ih (fun t ht => hcov t (List.mem_cons_of_mem s ht))]
    simp only [List.length_cons]
    omega

/-- One aggregated feature-weight statistic: the tuple
(mean, count, stddev, min, max, feature name) built by GenerateStats. -/
structure FWStat where
  mean : Rat
  count : Nat
  std : Rat
  fmin : Rat
  fmax : Rat
  name : String
deriving DecidableEq, Repr

/-- Insert a statistic into a descending-by-mean list, before any entry of
equal mean (the element being inserted comes earlier in discovery order). -/
def insertDesc (x : FWStat) : List FWStat → List FWStat
  | [] => [x]
  | y :: ys => if x.mean < y.mean then y :: insertDesc x ys else x :: y :: ys

/-- Stable sort by mean value, descending.  Python's
sorted(key=lambda a: a[0], reverse=True) is a stable descending sort and every
stable descending sort computes the same list, so insertion sort embeds it. -/
def sortDesc : List FWStat → List FWStat
  | [] => []
  | x :: xs => insertDesc x (sortDesc xs)

theorem insertDesc_perm (x : FWStat) (l : List FWStat) :
    List.Perm (insertDesc x l) (x :: l) := by
  induction l with
  | nil => simp [insertDesc]
  | cons y ys ih =>
    by_cases h : x.mean < y.mean
    · simp only [insertDesc, if_pos h]
      exact (ih.cons y).trans (List.Perm.swap x y ys)
    · simp [insertDesc, if_neg h]

theorem sortDesc_perm (l : List FWStat) : List.Perm (sortDesc l) l := by
  induction l with
  | nil => simp [sortDesc]
  | cons x xs ih => exact (insertDesc_perm x (sortDesc xs)).trans (ih.cons x)

theorem insertDesc_pairwise (x : FWStat) (l : List FWStat)
    (hl : l.Pairwise (fun a b => b.mean ≤ a.mean)) :
    (insertDesc x l).Pairwise (fun a b => b.mean ≤ a.mean) := by
  induction l with
  | nil => simp [insertDesc]
  | cons y ys ih =>
    rw [List.pairwise_cons] at hl
    by_cases h : x.mean < y.mean
    · simp only [insertDesc, if_pos h]
      rw [List.pairwise_cons]
      refine ⟨?_, ih hl.2⟩
      intro a ha
      rcases List.mem_cons.mp ((insertDesc_perm x ys).mem_iff.mp ha) with ha2 | ha2
      · rw [ha2]
        exact le_of_lt h
      · exact hl.1 a ha2
    · simp only [insertDesc, if_neg h]
      rw [List.pairwise_cons]
      push_neg at h
      refine ⟨?_, List.pairwise_cons.mpr hl⟩
      intro a ha
      rcases List.mem_cons.mp ha with ha2 | ha2
      · rw [ha2]
        exact h
      · exact le_trans (hl.1 a ha2) h

theorem sortDesc_pairwise (l : List FWStat) :
    (sortDesc l).Pairwise (fun a b => b.mean ≤ a.mean) := by
  induction l with
  | nil => simp [sortDesc]
  | cons x xs ih => exact insertDesc_pairwise x (sortDesc xs) ih

theorem filter_insertDesc_of_ne (x : FWStat) (l : List FWStat) (q : Rat)
    (hx : ¬ x.mean = q) :
    (insertDesc x l).filter (fun s => s.mean = q) =
      l.filter (fun s => s.mean = q) := by
  induction l with
  | nil => simp [insertDesc, hx]
  | cons y ys ih =>
    by_cases h : x.mean < y.mean
    · simp only [insertDesc, if_pos h]
      by_cases hy : y.mean = q <;> simp [List.filter_cons, hy, ih]
    · simp only [insertDesc, if_neg h]
      simp [List.filter_cons, hx]

theorem filter_insertDesc_of_eq (x : FWStat) (l : List FWStat) (q : Rat)
    (hx : x.mean = q)
    (hl : l.Pairwise (fun a b => b.mean ≤ a.mean)) :
    (insertDesc x l).filter (fun s => s.mean = q) =
      x :: l.filter (fun s => s.mean = q) := by
  induction l with
  | nil => simp [insertDesc, hx]
  | cons y ys ih =>
    rw [List.pairwise_cons] at hl
    by_cases h : x.mean < y.mean
    · have hy : ¬ y.mean = q := by
        intro he
        rw [hx, ← he] at h
        exact lt_irrefl _ h
      simp only [insertDesc, if_pos h]
      simp [List.filter_cons, hy, ih hl.2]
    · simp only [insertDesc, if_neg h]
      simp [List.filter_cons, hx]

theorem filter_sortDesc (l : List FWStat) (q : Rat) :
    (sortDesc l).filter (fun s => s.mean = q) =
      l.filter (fun s => s.mean = q) := by
  induction l with
  | nil => simp [sortDesc]
  | cons x xs ih =>
    by_cases hx : x.mean = q
    · rw [sortDesc, filter_insertDesc_of_eq x (sortDesc xs) q hx (sortDesc_pairwise xs)]
      simp [List.filter_cons, hx, ih]
    · rw [sortDesc, filter_insertDesc_of_ne x (sortDesc xs) q hx]
      simp [List.filter_cons, hx, ih]

/-- numpy mean of an array, modelled on rationals (sum divided by length). -/
def npMean (xs : List Rat) : Rat := xs.sum / xs.length

/-- numpy population standard deviation, square root abstracted as a
parameter. -/
def npStd (sqrt : Rat → Rat) (xs : List Rat) : Rat :=
  sqrt (((xs.map (fun x => (x - npMean xs) ^ 2)).sum) / xs.length)

/-- numpy min of an array; a ValueError on an empty array. -/
def npMin : List Rat → Except PyErr Rat
  | [] => .error .valueError
  | x :: rest => .ok (rest.foldl min x)

/-- numpy max of an array; a ValueError on an empty array. -/
def npMax : List Rat → Except PyErr Rat
  | [] => .error .valueError
  | x :: rest => .ok (rest.foldl max x)

/-- Embeds fwl_w_zeros = np.zeros(B); fwl_w_zeros[0:count] = fwl (lines
129-130).  numpy raises a broadcast ValueError when count exceeds B. -/
def zeroPad (ws : List Rat) (B : Nat) : Except PyErr (List Rat) :=
  if ws.length ≤ B then .ok (ws ++ List.replicate (B - ws.length) 0)
  else .error .valueError

/-- Modelled from the spec: the per-split fields of a FeatureSpacePrediction
batch that the experiment-level aggregation reads (FeatureSpacePrediction.py
is not under src/, only its consumer is).  numResults is the length of the
batch's effective results list (tiled results when present, else individual
results); groundTruthValues and predictedValues are the batch's scraped value
lists after its own lazy GenerateStats; featureWeights holds the (name,
value) pairs of the split's feature weights in ranked order, none when the
batch carries no weights. -/
structure PredBatch (α : Type) where
  numResults : Nat
  groundTruthValues : List α
  predictedValues : List α
  featureWeights : Option (List (String × Rat))
deriving DecidableEq

/-- Experiment-level attribute state read and written by the base-class
GenerateStats. -/
structure PredState (α : Type) where
  numClassifications : Nat
  groundTruthValues : List α
  predictedValues : List α
  featureWeightStatistics : Option (List FWStat)
deriving DecidableEq

/-- Modelled from the spec: fresh experiment attribute state as set by
FeatureSpacePrediction.__init__ (uncomputed statistics start at zero, empty
or None). -/
def initPredState {α : Type} : PredState α := ⟨0, [], [], none⟩

/-- Append one observed weight to the feature_weight_lists dictionary (lines
115-118): create the entry when the name is new, then append the weight. -/
def fwAdd (m : List (String × List Rat)) (name : String) (w : Rat) :
    List (String × List Rat) :=
  dictUpd m name [] (fun ws => ws ++ [w])

/-- The feature_weight_lists dictionary (lines 109-118): per feature name,
the weights collected from every batch that used it, in batch order; keys in
first-discovery order. -/
def featureWeightLists {α : Type} (batches : List (PredBatch α)) :
    List (String × List Rat) :=
  batches.foldl (fun m b =>
    match b.featureWeights with
    | none => m
    | some ws => ws.foldl (fun m' nv => fwAdd m' nv.1 nv.2) m) []

/-- One aggregated statistic tuple (lines 126-132): mean over the zero-padded
vector of length B, count and stddev and min and max over the weights
actually observed. -/
def fwStatOf (sqrt : Rat → Rat) (B : Nat) (name : String) (ws : List Rat) :
    Except PyErr FWStat := do
  let padded ← zeroPad ws B
  let mn ← npMin ws
  let mx ← npMax ws
  .ok ⟨npMean padded, ws.length, npStd sqrt ws, mn, mx, name⟩

/-- The list feature_weight_stats in dictionary (= discovery) order, before
sorting (lines 125-132); an exception inside the loop propagates. -/
def featureWeightStatsList (sqrt : Rat → Rat) (B : Nat) :
    List (String × List Rat) → Except PyErr (List FWStat)
  | [] => .ok []
  | nws :: rest => do
    let s ← fwStatOf sqrt B nws.1 nws.2
    let others ← featureWeightStatsList sqrt B rest
    .ok (s :: others)

/-- FeatureSpacePredictionExperiment.GenerateStats (lines 63-136):
accumulates num_classifications across batches without resetting it,
aggregates ground-truth and predicted values (a batch whose list is empty,
hence falsy, contributes neither; when no batch contributes, the previous
attribute value is kept), and builds the feature-weight statistics sorted
descending by mean (the guard on line 120 compares identities and is always
true, so the statistics are always assigned).  The lazy per-batch
GenerateStats calls of lines 85-86 only fill each batch's own summary and do
not change the values read here. -/
def baseGenerateStats {α : Type} (sqrt : Rat → Rat) (batches : List (PredBatch α))
    (st : PredState α) : Except PyErr (PredState α) := do
  let numClass := st.numClassifications + (batches.map (·.numResults)).sum
  let gtLists := (batches.map (·.groundTruthValues)).filter (fun l => !l.isEmpty)
  let pvLists := (batches.map (·.predictedValues)).filter (fun l => !l.isEmpty)
  let gt := if gtLists.isEmpty then st.groundTruthValues else gtLists.flatten
  let pv := if pvLists.isEmpty then st.predictedValues else pvLists.flatten
  let stats ← featureWeightStatsList sqrt batches.length (featureWeightLists batches)
  .ok ⟨numClass, gt, pv, some (sortDesc stats)⟩

/-- A FeatureSpaceClassification batch as the experiment aggregation reads it
(modelled from the spec: FeatureSpacePrediction.py is not under src/).  It
carries the split's individual sample results, its per-split average class
probability matrix (a defaultdict of floats, modelled as a total function),
and the base-class fields passed through; its confusion-matrix cell counts
are derived from the samples by sampleCount. -/
structure ClassifBatch where
  samples : List SampleC
  avgProb : String → String → Rat
  groundTruthValues : List Rat
  predictedValues : List Rat
  featureWeights : Option (List (String × Rat))

/-- Base-class view of a classification batch; len(batch) is modelled from
the spec as the number of individual sample results. -/
def ClassifBatch.toPredBatch (b : ClassifBatch) : PredBatch Rat :=
  ⟨b.samples.length, b.groundTruthValues, b.predictedValues, b.featureWeights⟩

/-- A classification experiment: the declared class-name lists of the shared
test and training sets, and the accumulated per-split batch results. -/
structure ClassifExperiment where
  testClassNames : List String
  trainClassNames : List String
  batches : List ClassifBatch

/-- The counters and matrices reset and rebuilt by
FeatureSpaceClassificationExperiment.GenerateStats (lines 347-355). -/
structure AggState where
  confusionMatrix : List ((String × String) × Nat)
  avgProbSums : List ((String × String) × Rat)
  numCorrect : Nat
  numClassifications : Nat
  numPerClass : List (String × Nat)
  numCorrectPerClass : List (String × Nat)
deriving DecidableEq

/-- Zeroed counters and empty defaultdict matrices (lines 347-355). -/
def initAggState : AggState := ⟨[], [], 0, 0, [], []⟩

/-- Body of the confusion-matrix double loop (lines 362-379) for one
(ground-truth, predicted) class pair of one batch. -/
def aggCell (b : ClassifBatch) (st : AggState) (gp : String × String) : AggState :=
  let count := sampleCount b.samples gp.1 gp.2
  { confusionMatrix := dictUpd st.confusionMatrix gp 0 (· + count)
    avgProbSums := dictUpd st.avgProbSums gp 0 (· + b.avgProb gp.1 gp.2)
    numCorrect := st.numCorrect + (if gp.1 = gp.2 then count else 0)
    numClassifications := st.numClassifications
    numPerClass := dictUpd st.numPerClass gp.1 0 (· + count)
    numCorrectPerClass :=
      if gp.1 = gp.2 then dictUpd st.numCorrectPerClass gp.1 0 (· + count)
      else st.numCorrectPerClass }

/-- One iteration of the batch loop (lines 357-379): add the batch's length
to num_classifications, then walk every (test row, train column) pair. -/
def aggBatch (test train : List String) (st : AggState) (b : ClassifBatch) :
    AggState :=
  (listProd test train).foldl (aggCell b)
    { st with numClassifications := st.numClassifications + b.samples.length }

/-- The accumulation phase of
FeatureSpaceClassificationExperiment.GenerateStats (lines 338-379): counters
and matrices are reset, then every batch is folded in. -/
def classifAccumulate (exp : ClassifExperiment) : AggState :=
  exp.batches.foldl (aggBatch exp.testClassNames exp.trainClassNames) initAggState

/-- Finalization of the average class probability matrix (lines 381-386):
each (row, col) cell over the declared class lists is divided by the number
of batches; division by zero batches raises ZeroDivisionError.  The source
iterates rows and columns in sorted order; as each cell is updated exactly
once, the resulting dictionary does not depend on the iteration order, and
the declared order is used here. -/
def finalizeAvgProb (B : Nat) (test train : List String)
    (m : List ((String × String) × Rat)) :
    Except PyErr (List ((String × String) × Rat)) :=
  (listProd test train).foldlM (fun acc gp =>
    if B = 0 then .error .zeroDivisionError
    else .ok (dictUpd acc gp 0 (· / (B : Rat)))) m

/-- Read of a defaultdict(float) cell: the present value, or 0.0 with the
cell created (line 396 reads each diagonal entry through the defaultdict). -/
def qmTouchGet (m : List ((String × String) × Rat)) (k : String × String) :
    Rat × List ((String × String) × Rat) :=
  match dictGet? m k with
  | some v => (v, m)
  | none => (0, m ++ [(k, 0)])

/-- Division of one row by its diagonal value (lines 395-398); every cell
division with a zero denominator raises ZeroDivisionError. -/
def simRow (train : List String) (row : String)
    (m : List ((String × String) × Rat)) :
    Except PyErr (List ((String × String) × Rat)) :=
  let dm := qmTouchGet m (row, row)
  train.foldlM (fun acc col =>
    if dm.1 = 0 then .error .zeroDivisionError
    else .ok (dictUpd acc (row, col) 0 (· / dm.1))) dm.2

/-- The similarity-matrix phase (lines 388-398): computed only when the
test-set and training-set class-name lists are equal as Python lists; each
row of a deep copy of the averaged class probability matrix is divided by
its own diagonal entry. -/
def similarityPhase (test train : List String)
    (m : List ((String × String) × Rat)) :
    Except PyErr (Option (List ((String × String) × Rat))) :=
  if test = train then do
    let sim ← test.foldlM (fun acc row => simRow train row acc) m
    .ok (some sim)
  else .ok none

/-- The attributes of a classification experiment set by a successful
GenerateStats run. -/
structure ClassifResult where
  stats : PredState Rat
  confusionMatrix : List ((String × String) × Nat)
  numCorrect : Nat
  numPerClass : List (String × Nat)
  numCorrectPerClass : List (String × Nat)
  avgClassProbabilityMatrix : List ((String × String) × Rat)
  similarityMatrix : Option (List ((String × String) × Rat))
  classificationAccuracy : Rat
deriving DecidableEq

/-- FeatureSpaceClassificationExperiment.GenerateStats (lines 330-401): the
base-class aggregation runs first, the counters and matrices are reset and
rebuilt from all batches, the average class probability matrix is finalized,
the similarity matrix is computed when the class-name lists coincide, and
the classification accuracy is the final division of line 400;
num_classifications is the recount of lines 355-360. -/
def classifGenerateStats (sqrt : Rat → Rat) (exp : ClassifExperiment)
    (st : PredState Rat) : Except PyErr ClassifResult := do
  let base ← baseGenerateStats sqrt (exp.batches.map ClassifBatch.toPredBatch) st
  let agg := classifAccumulate exp
  let avg ← finalizeAvgProb exp.batches.length exp.testClassNames
    exp.trainClassNames agg.avgProbSums
  let sim ← similarityPhase exp.testClassNames exp.trainClassNames avg
  if agg.numClassifications = 0 then .error .zeroDivisionError
  else
    .ok ⟨{ base with numClassifications := agg.numClassifications },
      agg.confusionMatrix, agg.numCorrect, agg.numPerClass,
      agg.numCorrectPerClass, avg, sim,
      (agg.numCorrect : Rat) / (agg.numClassifications : Rat)⟩

/-- The confusion-matrix updates contributed by one batch over a list of
(row, column) pairs. -/
def confFoldBatch (L : List (String × String)) (b : ClassifBatch)
    (m : List ((String × String) × Nat)) : List ((String × String) × Nat) :=
  L.foldl (fun acc gp => dictUpd acc gp 0 (· + sampleCount b.samples gp.1 gp.2)) m

theorem aggCells_confusionMatrix (b : ClassifBatch) (L : List (String × String))
    (st : AggState) :
    (L.foldl (aggCell b) st).confusionMatrix = confFoldBatch L b st.confusionMatrix := by
  induction L generalizing st with
  | nil => rfl
  | cons gp L ih =>
    rw [List.foldl_cons, ih]
    rfl

theorem aggCells_numClassifications (b : ClassifBatch) (L : List (String × String))
    (st : AggState) :
    (L.foldl (aggCell b) st).numClassifications = st.numClassifications := by
  induction L generalizing st with
  | nil => rfl
  | cons gp L ih =>
    rw [List.foldl_cons, ih]
    rfl

theorem aggCells_numCorrect (b : ClassifBatch) (L : List (String × String))
    (st : AggState) :
    (L.foldl (aggCell b) st).numCorrect = st.numCorrect +
      (L.map (fun gp => if gp.1 = gp.2 then sampleCount b.samples gp.1 gp.2 else 0)).sum := by
  induction L generalizing st with
  | nil => simp
  | cons gp L ih =>
    rw [List.foldl_cons, ih]
    simp [aggCell]
    omega

theorem aggBatch_confusionMatrix (test train : List String) (st : AggState)
    (b : ClassifBatch) :
    (aggBatch test train st b).confusionMatrix
      = confFoldBatch (listProd test train) b st.confusionMatrix := by
  rw [aggBatch, aggCells_confusionMatrix]

theorem aggBatch_numClassifications (test train : List String) (st : AggState)
    (b : ClassifBatch) :
    (aggBatch test train st b).numClassifications
      = st.numClassifications + b.samples.length := by
  rw [aggBatch, aggCells_numClassifications]

theorem aggBatch_numCorrect (test train : List String) (st : AggState)
    (b : ClassifBatch) :
    (aggBatch test train st b).numCorrect = st.numCorrect +
      ((listProd test train).map
        (fun gp => if gp.1 = gp.2 then sampleCount b.samples gp.1 gp.2 else 0)).sum := by
  rw [aggBatch, aggCells_numCorrect]

theorem dictValSum_confFoldBatch (L : List (String × String)) (b : ClassifBatch)
    (m : List ((String × String) × Nat)) :
    dictValSum (confFoldBatch L b m)
      = dictValSum m + (L.map (fun gp => sampleCount b.samples gp.1 gp.2)).sum := by
  induction L generalizing m with
  | nil => simp [confFoldBatch]
  | cons gp L ih =>
    rw [confFoldBatch, List.foldl_cons, ← confFoldBatch, ih, dictValSum_dictUpd_add]
    simp
    omega

theorem diagTotal_confFoldBatch (L : List (String × String)) (b : ClassifBatch)
    (m : List ((String × String) × Nat)) :
    diagTotal (confFoldBatch L b m)
      = diagTotal m +
        (L.map (fun gp => if gp.1 = gp.2 then sampleCount b.samples gp.1 gp.2 else 0)).sum := by
  induction L generalizing m with
  | nil => simp [confFoldBatch]
  | cons gp L ih =>
    rw [confFoldBatch, List.foldl_cons, ← confFoldBatch, ih, diagTotal_dictUpd]
    simp
    omega

theorem batchesFold_confusionMatrix (test train : List String)
    (batches : List ClassifBatch) (st : AggState) :
    ((batches.foldl (aggBatch test train) st).confusionMatrix)
      = batches.foldl (fun m b => confFoldBatch (listProd test train) b m)
          st.confusionMatrix := by
  induction batches generalizing st with
  | nil => rfl
  | cons b bs ih =>
    rw [List.foldl_cons, List.foldl_cons, ih, aggBatch_confusionMatrix]

theorem batchesFold_numClassifications (test train : List String)
    (batches : List ClassifBatch) (st : AggState) :
    (batches.foldl (aggBatch test train) st).numClassifications
      = st.numClassifications + (batches.map (fun b => b.samples.length)).sum := by
  induction batches generalizing st with
  | nil => simp
  | cons b bs ih =>
    rw [List.foldl_cons, ih, aggBatch_numClassifications]
    simp
    omega

theorem batchesFold_numCorrect (test train : List String)
    (batches : List ClassifBatch) (st : AggState) :
    (batches.foldl (aggBatch test train) st).numCorrect
      = st.numCorrect + (batches.map (fun b =>
          ((listProd test train).map
            (fun gp => if gp.1 = gp.2 then sampleCount b.samples gp.1 gp.2 else 0)).sum)).sum := by
  induction batches generalizing st with
  | nil => simp
  | cons b bs ih =>
    rw [List.foldl_cons, ih, aggBatch_numCorrect]
    simp
    omega

theorem classifAccumulate_numClassifications (exp : ClassifExperiment) :
    (classifAccumulate exp).numClassifications
      = (exp.batches.map (fun b => b.samples.length)).sum := by
  rw [classifAccumulate, batchesFold_numClassifications]
  simp [initAggState]

theorem classifAccumulate_numCorrect_eq_diagTotal (exp : ClassifExperiment) :
    (classifAccumulate exp).numCorrect
      = diagTotal (classifAccumulate exp).confusionMatrix := by
  rw [classifAccumulate, batchesFold_numCorrect, batchesFold_confusionMatrix]
  have h : ∀ (batches : List ClassifBatch) (m : List ((String × String) × Nat)),
      diagTotal (batches.foldl (fun m b =>
        confFoldBatch (listProd exp.testClassNames exp.trainClassNames) b m) m)
      = diagTotal m + (batches.map (fun b =>
          ((listProd exp.testClassNames exp.trainClassNames).map
            (fun gp => if gp.1 = gp.2 then sampleCount b.samples gp.1 gp.2 else 0)).sum)).sum := by
    intro batches
    induction batches with
    | nil => simp
    | cons b bs ih =>
      intro m
      rw [List.foldl_cons, ih, diagTotal_confFoldBatch]
      simp
      omega
  rw [h]
  simp [initAggState, diagTotal]

theorem classifAccumulate_dictValSum (exp : ClassifExperiment) :
    dictValSum (classifAccumulate exp).confusionMatrix
      = (exp.batches.map (fun b =>
          ((listProd exp.testClassNames exp.trainClassNames).map
            (fun gp => sampleCount b.samples gp.1 gp.2)).sum)).sum := by
  rw [classifAccumulate, batchesFold_confusionMatrix]
  have h : ∀ (batches : List ClassifBatch) (m : List ((String × String) × Nat)),
      dictValSum (batches.foldl (fun m b =>
        confFoldBatch (listProd exp.testClassNames exp.trainClassNames) b m) m)
      = dictValSum m + (batches.map (fun b =>
          ((listProd exp.testClassNames exp.trainClassNames).map
            (fun gp => sampleCount b.samples gp.1 gp.2)).sum)).sum := by
    intro batches
    induction batches with
    | nil => simp
    | cons b bs ih =>
      intro m
      rw [List.foldl_cons, ih, dictValSum_confFoldBatch]
      simp
      omega
  rw [h]
  simp [initAggState, dictValSum]

theorem confFoldBatch_get (L : List (String × String)) (hL : L.Nodup)
    (b : ClassifBatch) (m : List ((String × String) × Nat))
    (k : String × String) (hk : k ∈ L) :
    dictGet? (confFoldBatch L b m) k
      = some (((dictGet? m k).getD 0) + sampleCount b.samples k.1 k.2) := by
  rw [confFoldBatch,
    dictGet?_foldl_dictUpd L hL (fun gp v => v + sampleCount b.samples gp.1 gp.2) 0 m k]
  simp [hk]

theorem batchesConfFold_get (L : List (String × String)) (hL : L.Nodup)
    (k : String × String) (hk : k ∈ L)
    (batches : List ClassifBatch) (m : List ((String × String) × Nat)) :
    dictGet? (batches.foldl (fun acc b => confFoldBatch L b acc) m) k
      = if batches.isEmpty then dictGet? m k
        else some (((dictGet? m k).getD 0)
          + (batches.map (fun b => sampleCount b.samples k.1 k.2)).sum) := by
  induction batches generalizing m with
  | nil => simp
  | cons b bs ih =>
    rw [List.foldl_cons, ih]
    by_cases hbs : bs.isEmpty
    · have : bs = [] := List.isEmpty_iff.mp hbs
      subst this
      simp [confFoldBatch_get L hL b m k hk]
    · simp only [List.isEmpty_cons, hbs, if_false, Bool.false_eq_true]
      rw [confFoldBatch_get L hL b m k hk]
      simp
      omega

theorem classifAccumulate_confGet (exp : ClassifExperiment)
    (ht : exp.testClassNames.Nodup) (hr : exp.trainClassNames.Nodup)
    (hb : ¬ exp.batches = []) (g p : String)
    (hg : g ∈ exp.testClassNames) (hp : p ∈ exp.trainClassNames) :
    dictGet? (classifAccumulate exp).confusionMatrix (g, p)
      = some ((exp.batches.map (fun b => sampleCount b.samples g p)).sum) := by
  rw [classifAccumulate, batchesFold_confusionMatrix]
  rw [batchesConfFold_get (listProd exp.testClassNames exp.trainClassNames)
    (nodup_listProd _ _ ht hr) (g, p)
    ((mem_listProd _ _ _).mpr ⟨hg, hp⟩) exp.batches initAggState.confusionMatrix]
  simp [initAggState, dictGet?, List.isEmpty_iff, hb]

theorem classifGenerateStats_ok (sqrt : Rat → Rat) (exp : ClassifExperiment)
    (st : PredState Rat) (r : ClassifResult)
    (h : classifGenerateStats sqrt exp st = .ok r) :
    ∃ base avg sim,
      baseGenerateStats sqrt (exp.batches.map ClassifBatch.toPredBatch) st = .ok base
      ∧ finalizeAvgProb exp.batches.length exp.testClassNames exp.trainClassNames
          (classifAccumulate exp).avgProbSums = .ok avg
      ∧ similarityPhase exp.testClassNames exp.trainClassNames avg = .ok sim
      ∧ ¬ (classifAccumulate exp).numClassifications = 0
      ∧ r = ⟨{ base with numClassifications := (classifAccumulate exp).numClassifications },
          (classifAccumulate exp).confusionMatrix, (classifAccumulate exp).numCorrect,
          (classifAccumulate exp).numPerClass, (classifAccumulate exp).numCorrectPerClass,
          avg, sim,
          ((classifAccumulate exp).numCorrect : Rat)
            / ((classifAccumulate exp).numClassifications : Rat)⟩ := by
  rw [classifGenerateStats] at h
  cases hbase : baseGenerateStats sqrt (exp.batches.map ClassifBatch.toPredBatch) st with
  | error e =>
    rw [hbase] at h
    simp [Bind.bind, Except.bind] at h
  | ok base =>
    rw [hbase] at h
    simp only [Bind.bind, Except.bind] at h
    cases havg : finalizeAvgProb exp.batches.length exp.testClassNames
        exp.trainClassNames (classifAccumulate exp).avgProbSums with
    | error e =>
      rw [havg] at h
      simp at h
    | ok avg =>
      rw [havg] at h
      simp only at h
      cases hsim : similarityPhase exp.testClassNames exp.trainClassNames avg with
      | error e =>
        rw [hsim] at h
        simp at h
      | ok sim =>
        rw [hsim] at h
        simp only at h
        by_cases hz : (classifAccumulate exp).numClassifications = 0
        · rw [if_pos hz] at h
          exact absurd h (by simp)
        · rw [if_neg hz] at h
          refine ⟨base, avg, sim, rfl, rfl, hsim, hz, ?_⟩
          exact (Except.ok.injEq .. ▸ h).symm

theorem classifAccumulate_numCorrect_le (exp : ClassifExperiment)
    (ht : exp.testClassNames.Nodup) (htr : exp.trainClassNames.Nodup) :
    (classifAccumulate exp).numCorrect ≤ (classifAccumulate exp).numClassifications := by
  rw [classifAccumulate_numCorrect_eq_diagTotal, classifAccumulate_numClassifications]
  refine le_trans (diagTotal_le_dictValSum _) ?_
  rw [classifAccumulate_dictValSum]
  exact List.sum_le_sum (fun b _ =>
    sum_sampleCount_le _ (nodup_listProd _ _ ht htr) b.samples)

/-- Stand-in square-root oracle used to instantiate closed statements; every
theorem parameterized over sqrt holds for an arbitrary function. -/
def sqrtModel (q : Rat) : Rat := q

/-- C1: for every classification experiment with at least one batch and at
least one classification, after GenerateStats the aggregate
num_correct_classifications equals the sum of the confusion-matrix diagonal
cells (cells whose ground-truth class name equals the predicted class name),
classification_accuracy equals num_correct_classifications divided by
num_classifications, and the accuracy lies between 0 and 1.  (The class-name
lists of a feature space hold distinct names, hence the Nodup hypotheses; a
successful run implies at least one batch and one classification.) -/
theorem claim_C1_accuracy_and_diagonal (sqrt : Rat → Rat) (exp : ClassifExperiment)
    (st : PredState Rat) (r : ClassifResult)
    (_hb : ¬ exp.batches = [])
    (ht : exp.testClassNames.Nodup) (htr : exp.trainClassNames.Nodup)
    (h : classifGenerateStats sqrt exp st = .ok r) :
    r.numCorrect = diagTotal r.confusionMatrix
    ∧ r.classificationAccuracy
        = (r.numCorrect : Rat) / (r.stats.numClassifications : Rat)
    ∧ 0 ≤ r.classificationAccuracy
    ∧ r.classificationAccuracy ≤ 1 := by
  obtain ⟨base, avg, sim, hbase, havg, hsim, hz, hr_eq⟩ :=
    classifGenerateStats_ok sqrt exp st r h
  subst hr_eq
  refine ⟨classifAccumulate_numCorrect_eq_diagTotal exp, rfl, ?_, ?_⟩
  · exact div_nonneg (Nat.cast_nonneg _) (Nat.cast_nonneg _)
  · exact div_le_one_of_le₀
      (Nat.cast_le.mpr (classifAccumulate_numCorrect_le exp ht htr))
      (Nat.cast_nonneg _)

/-- Concrete one-batch experiment over classes a, b with a single correctly
classified sample. -/
def c1Sample : SampleC := ⟨"img1.tif", "a", "a", [1, 0], 1, 0⟩

def c1Batch : ClassifBatch := ⟨[c1Sample], fun _ _ => 1, [], [], none⟩

def c1Exp : ClassifExperiment := ⟨["a", "b"], ["a", "b"], [c1Batch]⟩

def c1Result : ClassifResult :=
  ⟨⟨1, [], [], some []⟩,
   [(("a", "a"), 1), (("a", "b"), 0), (("b", "a"), 0), (("b", "b"), 0)],
   1, [("a", 1), ("b", 0)], [("a", 1), ("b", 0)],
   [(("a", "a"), 1), (("a", "b"), 1), (("b", "a"), 1), (("b", "b"), 1)],
   some [(("a", "a"), 1), (("a", "b"), 1), (("b", "a"), 1), (("b", "b"), 1)],
   1⟩

theorem claim_C1_witness :
    (¬ c1Exp.batches = [])
    ∧ c1Exp.testClassNames.Nodup ∧ c1Exp.trainClassNames.Nodup
    ∧ classifGenerateStats sqrtModel c1Exp initPredState = .ok c1Result
    ∧ (c1Result.numCorrect = diagTotal c1Result.confusionMatrix
       ∧ c1Result.classificationAccuracy
           = (c1Result.numCorrect : Rat) / (c1Result.stats.numClassifications : Rat)
       ∧ 0 ≤ c1Result.classificationAccuracy
       ∧ c1Result.classificationAccuracy ≤ 1) :=
  ⟨by simp [c1Exp], by decide, by decide, by
    simp [classifGenerateStats, baseGenerateStats, featureWeightStatsList,
      featureWeightLists, classifAccumulate, aggBatch, aggCell, sampleCount,
      finalizeAvgProb, similarityPhase, simRow, qmTouchGet, dictUpd, dictGet?,
      listProd, initAggState, initPredState, c1Exp, c1Batch, c1Sample, c1Result,
      sqrtModel, Bind.bind, Except.bind, sortDesc, insertDesc, zeroPad, npMean,
      npMin, npMax, npStd, ClassifBatch.toPredBatch, List.foldlM, pure,
      Pure.pure, Except.pure],
   claim_C1_accuracy_and_diagonal sqrtModel c1Exp initPredState c1Result
     (by simp [c1Exp]) (by decide) (by decide) (by
    simp [classifGenerateStats, baseGenerateStats, featureWeightStatsList,
      featureWeightLists, classifAccumulate, aggBatch, aggCell, sampleCount,
      finalizeAvgProb, similarityPhase, simRow, qmTouchGet, dictUpd, dictGet?,
      listProd, initAggState, initPredState, c1Exp, c1Batch, c1Sample, c1Result,
      sqrtModel, Bind.bind, Except.bind, sortDesc, insertDesc, zeroPad, npMean,
      npMin, npMax, npStd, ClassifBatch.toPredBatch, List.foldlM, pure,
      Pure.pure, Except.pure])⟩

/-- C2: after GenerateStats on a classification experiment, for every
ground-truth class g in the test set's declared class-name list and every
predicted class p in the training set's declared class-name list, the
aggregate confusion matrix contains an entry for (g, p) — zero when no batch
produced that pair — equal to the sum over all batches of that batch's count
for (g, p); and the grand total of all cells equals num_classifications,
which is the total classification count across all batches.  (The matrix is
built by the accumulation phase, lines 356-379, and remains set on the
object whatever happens in the later finalization divisions; samples carry
class names from the declared lists, and the declared lists hold distinct
names.) -/
theorem claim_C2_confusion_totals (exp : ClassifExperiment)
    (hb : ¬ exp.batches = [])
    (ht : exp.testClassNames.Nodup) (htr : exp.trainClassNames.Nodup)
    (hcov : ∀ b ∈ exp.batches, ∀ s ∈ b.samples,
      s.groundTruthClassName ∈ exp.testClassNames
      ∧ s.predictedClassName ∈ exp.trainClassNames) :
    (∀ g ∈ exp.testClassNames, ∀ p ∈ exp.trainClassNames,
      dictGet? (classifAccumulate exp).confusionMatrix (g, p)
        = some ((exp.batches.map (fun b => sampleCount b.samples g p)).sum))
    ∧ dictValSum (classifAccumulate exp).confusionMatrix
        = (exp.batches.map (fun b => b.samples.length)).sum
    ∧ dictValSum (classifAccumulate exp).confusionMatrix
        = (classifAccumulate exp).numClassifications := by
  have htotal : dictValSum (classifAccumulate exp).confusionMatrix
      = (exp.batches.map (fun b => b.samples.length)).sum := by
    rw [classifAccumulate_dictValSum]
    refine congrArg List.sum (List.map_congr_left (fun b hbmem => ?_))
    exact sum_sampleCount_eq _ (nodup_listProd _ _ ht htr) b.samples
      (fun s hs => (mem_listProd _ _ _).mpr ((hcov b hbmem s hs)))
  refine ⟨?_, htotal, ?_⟩
  · intro g hg p hp
    exact classifAccumulate_confGet exp ht htr hb g p hg hp
  · rw [htotal, classifAccumulate_numClassifications]

/-- Concrete two-class experiment with one batch of two samples, one correct
and one misclassified. -/
def c2SampleA : SampleC := ⟨"s1.tif", "a", "a", [1, 0], 1, 0⟩

def c2SampleB : SampleC := ⟨"s2.tif", "a", "b", [0, 1], 1, 0⟩

def c2Batch : ClassifBatch := ⟨[c2SampleA, c2SampleB], fun _ _ => 1, [], [], none⟩

def c2Exp : ClassifExperiment := ⟨["a", "b"], ["a", "b"], [c2Batch]⟩

theorem claim_C2_witness :
    (¬ c2Exp.batches = [])
    ∧ c2Exp.testClassNames.Nodup ∧ c2Exp.trainClassNames.Nodup
    ∧ (∀ b ∈ c2Exp.batches, ∀ s ∈ b.samples,
        s.groundTruthClassName ∈ c2Exp.testClassNames
        ∧ s.predictedClassName ∈ c2Exp.trainClassNames)
    ∧ ((∀ g ∈ c2Exp.testClassNames, ∀ p ∈ c2Exp.trainClassNames,
        dictGet? (classifAccumulate c2Exp).confusionMatrix (g, p)
          = some ((c2Exp.batches.map (fun b => sampleCount b.samples g p)).sum))
      ∧ dictValSum (classifAccumulate c2Exp).confusionMatrix
          = (c2Exp.batches.map (fun b => b.samples.length)).sum
      ∧ dictValSum (classifAccumulate c2Exp).confusionMatrix
          = (classifAccumulate c2Exp).numClassifications) :=
  ⟨by simp [c2Exp], by decide, by decide,
   by
    intro b hb s hs
    simp [c2Exp, c2Batch, c2SampleA, c2SampleB] at hb
    subst hb
    simp [c2Batch, c2SampleA, c2SampleB, c2Exp] at hs ⊢
    rcases hs with hs | hs <;> subst hs <;> simp [c2SampleA, c2SampleB],
   claim_C2_confusion_totals c2Exp (by simp [c2Exp]) (by decide) (by decide)
     (by
      intro b hb s hs
      simp [c2Exp, c2Batch, c2SampleA, c2SampleB] at hb
      subst hb
      simp [c2Batch, c2SampleA, c2SampleB, c2Exp] at hs ⊢
      rcases hs with hs | hs <;> subst hs <;> simp [c2SampleA, c2SampleB])⟩

/-- C10: for every classification experiment whose batch list is empty,
GenerateStats raises ZeroDivisionError rather than returning empty or zeroed
statistics: with nonempty class-name lists the average-class-probability
finalization divides each cell by the number of batches (zero, lines
384-386), and otherwise the accuracy computation divides by
num_classifications (zero, line 400). -/
theorem claim_C10_empty_batches_raise (sqrt : Rat → Rat) (exp : ClassifExperiment)
    (st : PredState Rat) (hb : exp.batches = []) :
    classifGenerateStats sqrt exp st = .error .zeroDivisionError := by
  have hacc : classifAccumulate exp = initAggState := by
    rw [classifAccumulate, hb]
    rfl
  have hbase : baseGenerateStats sqrt (exp.batches.map ClassifBatch.toPredBatch) st
      = .ok ⟨st.numClassifications, st.groundTruthValues, st.predictedValues,
          some []⟩ := by
    rw [hb]
    simp [baseGenerateStats, featureWeightLists, featureWeightStatsList,
      Bind.bind, Except.bind, sortDesc]
  rw [classifGenerateStats, hbase]
  simp only [Bind.bind, Except.bind]
  cases hL : listProd exp.testClassNames exp.trainClassNames with
  | nil =>
    have hfin : finalizeAvgProb exp.batches.length exp.testClassNames
        exp.trainClassNames (classifAccumulate exp).avgProbSums
        = .ok (classifAccumulate exp).avgProbSums := by
      rw [finalizeAvgProb, hL]
      rfl
    rw [hfin]
    have htest : exp.testClassNames = exp.trainClassNames →
        exp.testClassNames = [] := by
      intro he
      cases hte : exp.testClassNames with
      | nil => rfl
      | cons a l =>
        rw [hte, ← he, hte] at hL
        simp [listProd] at hL
    by_cases he : exp.testClassNames = exp.trainClassNames
    · have h0 : exp.testClassNames = [] := htest he
      have hsim : similarityPhase exp.testClassNames exp.trainClassNames
          (classifAccumulate exp).avgProbSums
          = .ok (some (classifAccumulate exp).avgProbSums) := by
        rw [similarityPhase, if_pos he, h0]
        rfl
      have h0tr : exp.trainClassNames = [] := by
        rw [← he]
        exact h0
      simp [hacc, initAggState, similarityPhase, h0, h0tr, List.foldlM,
        pure, Pure.pure, Except.pure, Bind.bind, Except.bind]
    · have hsim : similarityPhase exp.testClassNames exp.trainClassNames
          (classifAccumulate exp).avgProbSums = .ok none := by
        rw [similarityPhase, if_neg he]
      simp [hacc, initAggState, similarityPhase, he]
  | cons gp L2 =>
    have hfin : finalizeAvgProb exp.batches.length exp.testClassNames
        exp.trainClassNames (classifAccumulate exp).avgProbSums
        = .error .zeroDivisionError := by
      rw [finalizeAvgProb, hL, hb]
      rfl
    rw [hfin]

def c10Exp : ClassifExperiment := ⟨["a"], ["a"], []⟩

theorem claim_C10_witness :
    c10Exp.batches = []
    ∧ classifGenerateStats sqrtModel c10Exp initPredState
        = .error .zeroDivisionError :=
  ⟨rfl, claim_C10_empty_batches_raise sqrtModel c10Exp initPredState rfl⟩

theorem except_bind_ok {ε α β : Type} (x : Except ε α) (f : α → Except ε β) (b : β)
    (h : (x >>= f) = .ok b) : ∃ a, x = .ok a ∧ f a = .ok b := by
  cases x with
  | error e => simp [Bind.bind, Except.bind] at h
  | ok a => exact ⟨a, rfl, by simpa [Bind.bind, Except.bind] using h⟩

theorem dictGet?_append_single {κ β : Type} [DecidableEq κ]
    (m : List (κ × β)) (k0 k : κ) (v : β) (hk : ¬ k = k0) :
    dictGet? (m ++ [(k0, v)]) k = dictGet? m k := by
  induction m with
  | nil => simp [dictGet?, Ne.symm hk]
  | cons hd tl ih =>
    obtain ⟨k', w⟩ := hd
    by_cases h : k' = k <;> simp [dictGet?, h, ih]

theorem dictGet?_foldl_dictUpd_not_mem {κ β : Type} [DecidableEq κ]
    (L : List κ) (f : κ → β → β) (d : β) (m : List (κ × β)) (k : κ)
    (hk : k ∉ L) :
    dictGet? (L.foldl (fun acc x => dictUpd acc x d (f x)) m) k = dictGet? m k := by
  induction L generalizing m with
  | nil => simp
  | cons a L ih =>
    rw [List.mem_cons] at hk
    push_neg at hk
    rw [List.foldl_cons, ih _ hk.2, dictGet?_dictUpd_ne _ _ _ _ _ hk.1]

theorem qmTouchGet_of_ne (m : List ((String × String) × Rat)) (k : String × String)
    (hd : ¬ (qmTouchGet m k).1 = 0) :
    dictGet? m k = some (qmTouchGet m k).1 ∧ (qmTouchGet m k).2 = m := by
  rw [qmTouchGet] at hd ⊢
  cases h : dictGet? m k with
  | some v => simp [h]
  | none => simp [h] at hd

theorem simRow_ok_denom (train : List String) (row : String)
    (m m' : List ((String × String) × Rat))
    (h : simRow train row m = .ok m') (hne : ¬ train = []) :
    ¬ (qmTouchGet m (row, row)).1 = 0 := by
  intro h0
  cases htr : train with
  | nil => exact hne htr
  | cons c cols =>
    rw [simRow, htr] at h
    simp [List.foldlM, h0, Bind.bind, Except.bind] at h

theorem foldlM_divGuard_ok (d : Rat) (hd : ¬ d = 0) (row : String)
    (cols : List String) (m0 : List ((String × String) × Rat)) :
    (cols.foldlM (fun acc col =>
      if d = 0 then Except.error PyErr.zeroDivisionError
      else Except.ok (dictUpd acc (row, col) 0 (· / d))) m0)
      = .ok (cols.foldl (fun acc col => dictUpd acc (row, col) 0 (· / d)) m0) := by
  induction cols generalizing m0 with
  | nil => rfl
  | cons c cols ih =>
    rw [List.foldlM_cons, if_neg hd, List.foldl_cons]
    simp only [Bind.bind, Except.bind]
    exact ih _

theorem simRow_ok_of_denom_ne (train : List String) (row : String)
    (m : List ((String × String) × Rat))
    (hd : ¬ (qmTouchGet m (row, row)).1 = 0) :
    simRow train row m = .ok (train.foldl (fun acc col =>
      dictUpd acc (row, col) 0 (· / (qmTouchGet m (row, row)).1))
      (qmTouchGet m (row, row)).2) := by
  rw [simRow]
  exact foldlM_divGuard_ok (qmTouchGet m (row, row)).1 hd row train
    (qmTouchGet m (row, row)).2

theorem simRow_preserves (train : List String) (row : String)
    (m m' : List ((String × String) × Rat))
    (h : simRow train row m = .ok m') (k : String × String) (hk : ¬ k.1 = row) :
    dictGet? m' k = dictGet? m k := by
  by_cases hd : (qmTouchGet m (row, row)).1 = 0
  · cases htr : train with
    | nil =>
      rw [simRow, htr] at h
      simp only [List.foldlM] at h
      have hm' : m' = (qmTouchGet m (row, row)).2 := by
        simpa [pure, Pure.pure, Except.pure] using h.symm
      subst hm'
      rw [qmTouchGet]
      cases hg : dictGet? m (row, row) with
      | some v => rfl
      | none =>
        simp only
        refine dictGet?_append_single m (row, row) k 0 ?_
        intro hcontra
        exact hk (congrArg Prod.fst hcontra)
    | cons c cols =>
      rw [simRow, htr] at h
      simp [List.foldlM, hd, Bind.bind, Except.bind] at h
  · rw [simRow_ok_of_denom_ne train row m hd] at h
    have hm' : m' = train.foldl (fun acc col =>
        dictUpd acc (row, col) 0 (· / (qmTouchGet m (row, row)).1))
        (qmTouchGet m (row, row)).2 := by
      simpa using h.symm
    subst hm'
    obtain ⟨hget, hm⟩ := qmTouchGet_of_ne m (row, row) hd
    rw [hm]
    have hconv : train.foldl (fun acc col =>
        dictUpd acc (row, col) 0 (· / (qmTouchGet m (row, row)).1)) m
        = (train.map (fun c => (row, c))).foldl (fun acc x =>
            dictUpd acc x 0 (fun v => v / (qmTouchGet m (row, row)).1)) m := by
      rw [List.foldl_map]
    rw [hconv, dictGet?_foldl_dictUpd_not_mem]
    intro hmem
    obtain ⟨c, _, hc⟩ := List.mem_map.mp hmem
    exact hk (by rw [← hc])

theorem simRowsFold_preserves (train : List String) (rows : List String)
    (m msim : List ((String × String) × Rat))
    (h : rows.foldlM (fun acc row => simRow train row acc) m = .ok msim)
    (k : String × String) (hk : k.1 ∉ rows) :
    dictGet? msim k = dictGet? m k := by
  induction rows generalizing m with
  | nil =>
    simp only [List.foldlM, pure, Pure.pure, Except.pure] at h
    injection h with h2
    rw [h2]
  | cons c rest ih =>
    rw [List.mem_cons] at hk
    push_neg at hk
    simp only [List.foldlM] at h
    obtain ⟨m₁, hm₁, hrest⟩ := except_bind_ok _ _ _ h
    rw [ih m₁ hrest hk.2, simRow_preserves train c m m₁ hm₁ k hk.1]

theorem simRowsFold_spec (train : List String) (htr : train.Nodup)
    (hne : ¬ train = []) (rows : List String) (hrows : rows.Nodup)
    (m msim : List ((String × String) × Rat))
    (h : rows.foldlM (fun acc row => simRow train row acc) m = .ok msim) :
    ∀ c ∈ rows, ∃ v, dictGet? m (c, c) = some v ∧ ¬ v = 0
      ∧ ∀ d ∈ train, dictGet? msim (c, d)
          = some (((dictGet? m (c, d)).getD 0) / v) := by
  induction rows generalizing m with
  | nil =>
    intro c hc
    cases hc
  | cons c0 rest ih =>
    rw [List.nodup_cons] at hrows
    rw [List.foldlM_cons] at h
    obtain ⟨m₁, hm₁, hrest⟩ := except_bind_ok _ _ _ h
    have hd : ¬ (qmTouchGet m (c0, c0)).1 = 0 :=
      simRow_ok_denom train c0 m m₁ hm₁ hne
    obtain ⟨hget0, htouch⟩ := qmTouchGet_of_ne m (c0, c0) hd
    have hm₁eq : m₁ = train.foldl (fun acc col =>
        dictUpd acc (c0, col) 0 (· / (qmTouchGet m (c0, c0)).1)) m := by
      have h2 := simRow_ok_of_denom_ne train c0 m hd
      rw [hm₁, htouch] at h2
      injection h2
    intro c hc
    rcases List.mem_cons.mp hc with hc0 | hcr
    · subst hc0
      refine ⟨(qmTouchGet m (c, c)).1, hget0, hd, ?_⟩
      intro d hdmem
      rw [simRowsFold_preserves train rest m₁ msim hrest (c, d) hrows.1]
      rw [hm₁eq, ← List.foldl_map (fun x => (c, x))
        (fun acc k => dictUpd acc k 0 (fun v => v / (qmTouchGet m (c, c)).1)) train m]
      rw [dictGet?_foldl_dictUpd (train.map (fun x => (c, x)))
        (htr.map (fun a b hab => by simpa using congrArg Prod.snd hab))
        (fun _ v => v / (qmTouchGet m (c, c)).1) 0 m (c, d)]
      have hmem : (c, d) ∈ train.map (fun x => (c, x)) :=
        List.mem_map.mpr ⟨d, hdmem, rfl⟩
      rw [if_pos hmem]
    · have hcne : ¬ c = c0 := fun he => hrows.1 (he ▸ hcr)
      obtain ⟨v, hv, hv0, hcells⟩ := ih hrows.2 m₁ hrest c hcr
      refine ⟨v, ?_, hv0, ?_⟩
      · rw [← hv]
        exact (simRow_preserves train c0 m m₁ hm₁ (c, c) hcne).symm
      · intro d hdmem
        rw [hcells d hdmem, simRow_preserves train c0 m m₁ hm₁ (c, d) hcne]

/-- Experiment whose class-name lists are equal as sets but not as lists. -/
def c5CexSample : SampleC := ⟨"t1.tif", "a", "a", [1, 0], 1, 0⟩

def c5CexBatch : ClassifBatch := ⟨[c5CexSample], fun _ _ => 1, [], [], none⟩

def c5CexExp : ClassifExperiment := ⟨["a", "b"], ["b", "a"], [c5CexBatch]⟩

def c5CexResult : ClassifResult :=
  ⟨⟨1, [], [], some []⟩,
   [(("a", "b"), 0), (("a", "a"), 1), (("b", "b"), 0), (("b", "a"), 0)],
   1, [("a", 1), ("b", 0)], [("a", 1), ("b", 0)],
   [(("a", "b"), 1), (("a", "a"), 1), (("b", "b"), 1), (("b", "a"), 1)],
   none, 1⟩

/-- C5 counterexample: on an experiment whose test and training class-name
sets are equal as sets but ordered differently as lists, GenerateStats
succeeds and the similarity matrix is NOT computed (the source line 392
compares the class-name lists with Python list equality, which is
order-sensitive), contradicting the claim that set-equality suffices. -/
theorem claim_C5_counterexample :
    ¬ c5CexExp.testClassNames = c5CexExp.trainClassNames
    ∧ c5CexExp.testClassNames.toFinset = c5CexExp.trainClassNames.toFinset
    ∧ classifGenerateStats sqrtModel c5CexExp initPredState = .ok c5CexResult
    ∧ c5CexResult.similarityMatrix = none :=
  ⟨by decide, by decide,
   by
    simp [classifGenerateStats, baseGenerateStats, featureWeightStatsList,
      featureWeightLists, classifAccumulate, aggBatch, aggCell, sampleCount,
      finalizeAvgProb, similarityPhase, simRow, qmTouchGet, dictUpd, dictGet?,
      listProd, initAggState, initPredState, c5CexExp, c5CexBatch, c5CexSample,
      c5CexResult, sqrtModel, Bind.bind, Except.bind, sortDesc, insertDesc,
      zeroPad, npMean, npMin, npMax, npStd, ClassifBatch.toPredBatch,
      List.foldlM, pure, Pure.pure, Except.pure],
   rfl⟩

/-- C5 as amended: for every classification experiment in which the test-set
and training-set class-name lists are equal as lists (same names in the same
order — the source compares lists, not sets), a successful GenerateStats
computes the similarity matrix by dividing each row of the averaged class
probability matrix by that row's own diagonal entry, so every diagonal entry
of the similarity matrix equals exactly 1; a zero diagonal entry makes
GenerateStats raise ZeroDivisionError instead of succeeding, hence on
success every diagonal entry of the averaged matrix is nonzero. -/
theorem claim_C5_amended_similarity (sqrt : Rat → Rat) (exp : ClassifExperiment)
    (st : PredState Rat) (r : ClassifResult)
    (heq : exp.testClassNames = exp.trainClassNames)
    (ht : exp.testClassNames.Nodup)
    (h : classifGenerateStats sqrt exp st = .ok r) :
    ∃ sim, r.similarityMatrix = some sim
      ∧ (∀ c ∈ exp.testClassNames, ∃ v,
          dictGet? r.avgClassProbabilityMatrix (c, c) = some v ∧ ¬ v = 0
          ∧ ∀ d ∈ exp.trainClassNames,
              dictGet? sim (c, d)
                = some (((dictGet? r.avgClassProbabilityMatrix (c, d)).getD 0) / v))
      ∧ (∀ c ∈ exp.testClassNames, dictGet? sim (c, c) = some 1) := by
  obtain ⟨base, avg, sim0, hbase, havg, hsim, hz, hr_eq⟩ :=
    classifGenerateStats_ok sqrt exp st r h
  rw [similarityPhase, if_pos heq] at hsim
  obtain ⟨msim, hfold, hsome⟩ := except_bind_ok _ _ _ hsim
  have hsim0 : sim0 = some msim := by
    injection hsome with h2
    exact h2.symm
  subst hsim0
  subst hr_eq
  refine ⟨msim, rfl, ?_, ?_⟩
  · intro c hc
    have hne : ¬ exp.trainClassNames = [] := by
      intro h0
      rw [heq, h0] at hc
      cases hc
    have htr : exp.trainClassNames.Nodup := heq ▸ ht
    exact simRowsFold_spec exp.trainClassNames htr hne exp.testClassNames ht
      avg msim hfold c hc
  · intro c hc
    have hne : ¬ exp.trainClassNames = [] := by
      intro h0
      rw [heq, h0] at hc
      cases hc
    have htr : exp.trainClassNames.Nodup := heq ▸ ht
    obtain ⟨v, hv, hv0, hcells⟩ := simRowsFold_spec exp.trainClassNames htr hne
      exp.testClassNames ht avg msim hfold c hc
    have := hcells c (heq ▸ hc)
    rw [this, hv]
    simp [div_self hv0]

def c5Sample : SampleC := ⟨"w1.tif", "a", "a", [1, 0], 1, 0⟩

def c5Batch : ClassifBatch :=
  ⟨[c5Sample], fun g p => if g = p then 3/4 else 1/4, [], [], none⟩

def c5Exp : ClassifExperiment := ⟨["a", "b"], ["a", "b"], [c5Batch]⟩

def c5Result : ClassifResult :=
  ⟨⟨1, [], [], some []⟩,
   [(("a", "a"), 1), (("a", "b"), 0), (("b", "a"), 0), (("b", "b"), 0)],
   1, [("a", 1), ("b", 0)], [("a", 1), ("b", 0)],
   [(("a", "a"), 3/4), (("a", "b"), 1/4), (("b", "a"), 1/4), (("b", "b"), 3/4)],
   some [(("a", "a"), 1), (("a", "b"), 1/3), (("b", "a"), 1/3), (("b", "b"), 1)],
   1⟩

theorem claim_C5_witness :
    c5Exp.testClassNames = c5Exp.trainClassNames
    ∧ c5Exp.testClassNames.Nodup
    ∧ classifGenerateStats sqrtModel c5Exp initPredState = .ok c5Result
    ∧ (∃ sim, c5Result.similarityMatrix = some sim
      ∧ (∀ c ∈ c5Exp.testClassNames, ∃ v,
          dictGet? c5Result.avgClassProbabilityMatrix (c, c) = some v ∧ ¬ v = 0
          ∧ ∀ d ∈ c5Exp.trainClassNames,
              dictGet? sim (c, d)
                = some (((dictGet? c5Result.avgClassProbabilityMatrix (c, d)).getD 0) / v))
      ∧ (∀ c ∈ c5Exp.testClassNames, dictGet? sim (c, c) = some 1)) :=
  ⟨rfl, by decide,
   by
    simp [classifGenerateStats, baseGenerateStats, featureWeightStatsList,
      featureWeightLists, classifAccumulate, aggBatch, aggCell, sampleCount,
      finalizeAvgProb, similarityPhase, simRow, qmTouchGet, dictUpd, dictGet?,
      listProd, initAggState, initPredState, c5Exp, c5Batch, c5Sample,
      c5Result, sqrtModel, Bind.bind, Except.bind, sortDesc, insertDesc,
      zeroPad, npMean, npMin, npMax, npStd, ClassifBatch.toPredBatch,
      List.foldlM, pure, Pure.pure, Except.pure]
    norm_num,
   claim_C5_amended_similarity sqrtModel c5Exp initPredState c5Result rfl
     (by decide)
     (by
      simp [classifGenerateStats, baseGenerateStats, featureWeightStatsList,
        featureWeightLists, classifAccumulate, aggBatch, aggCell, sampleCount,
        finalizeAvgProb, similarityPhase, simRow, qmTouchGet, dictUpd, dictGet?,
        listProd, initAggState, initPredState, c5Exp, c5Batch, c5Sample,
        c5Result, sqrtModel, Bind.bind, Except.bind, sortDesc, insertDesc,
        zeroPad, npMean, npMin, npMax, npStd, ClassifBatch.toPredBatch,
        List.foldlM, pure, Pure.pure, Except.pure]
      norm_num)⟩

theorem dictGet?_mem {κ β : Type} [DecidableEq κ]
    (m : List (κ × β)) (k : κ) (v : β) (h : dictGet? m k = some v) : (k, v) ∈ m := by
  induction m with
  | nil => simp [dictGet?] at h
  | cons hd tl ih =>
    obtain ⟨k', w⟩ := hd
    by_cases hk : k' = k
    · subst hk
      rw [dictGet?, if_pos rfl] at h
      injection h with h2
      subst h2
      exact List.mem_cons_self _ _
    · rw [dictGet?, if_neg hk] at h
      exact List.mem_cons_of_mem _ (ih h)

/-- The weight value a batch assigns to feature name n, when the batch has
feature weights and they use that name. -/
def batchWeightOf {α : Type} (b : PredBatch α) (n : String) : Option Rat :=
  match b.featureWeights with
  | none => none
  | some ws => (ws.find? (fun nv => nv.1 = n)).map (·.2)

theorem fwAdd_foldl_get_not_mem (ws : List (String × Rat))
    (m : List (String × List Rat)) (n : String) (hn : n ∉ ws.map Prod.fst) :
    dictGet? (ws.foldl (fun m' nv => fwAdd m' nv.1 nv.2) m) n = dictGet? m n := by
  induction ws generalizing m with
  | nil => rfl
  | cons nv rest ih =>
    simp only [List.map_cons, List.mem_cons] at hn
    push_neg at hn
    rw [List.foldl_cons, ih _ hn.2, fwAdd, dictGet?_dictUpd_ne _ _ _ _ _ hn.1]

theorem fwAdd_foldl_get (ws : List (String × Rat)) (hnd : (ws.map Prod.fst).Nodup)
    (m : List (String × List Rat)) (n : String) :
    dictGet? (ws.foldl (fun m' nv => fwAdd m' nv.1 nv.2) m) n
      = match (ws.find? (fun nv => nv.1 = n)).map (·.2) with
        | some w => some (((dictGet? m n).getD []) ++ [w])
        | none => dictGet? m n := by
  induction ws generalizing m with
  | nil => rfl
  | cons nv rest ih =>
    simp only [List.map_cons, List.nodup_cons] at hnd
    by_cases hn : nv.1 = n
    · subst hn
      rw [List.foldl_cons, fwAdd_foldl_get_not_mem rest _ _ hnd.1]
      rw [List.find?_cons_of_pos _ (by simp)]
      simp [fwAdd, dictGet?_dictUpd_self]
    · rw [List.foldl_cons, ih hnd.2]
      rw [List.find?_cons_of_neg _ (by simp [hn])]
      rw [fwAdd, dictGet?_dictUpd_ne _ _ _ _ _ (fun h2 => hn h2.symm)]

theorem fwBatchStep_get {α : Type} (b : PredBatch α)
    (hnd : ∀ ws, b.featureWeights = some ws → (ws.map Prod.fst).Nodup)
    (m : List (String × List Rat)) (n : String) :
    dictGet? (match b.featureWeights with
      | none => m
      | some ws => ws.foldl (fun m' nv => fwAdd m' nv.1 nv.2) m) n
      = match batchWeightOf b n with
        | some w => some (((dictGet? m n).getD []) ++ [w])
        | none => dictGet? m n := by
  cases hfw : b.featureWeights with
  | none => simp [batchWeightOf, hfw]
  | some ws =>
    rw [fwAdd_foldl_get ws (hnd ws hfw) m n]
    simp only [batchWeightOf, hfw]

theorem featureWeightLists_get {α : Type} (batches : List (PredBatch α))
    (hnodup : ∀ b ∈ batches, ∀ ws, b.featureWeights = some ws → (ws.map Prod.fst).Nodup)
    (m : List (String × List Rat)) (n : String) :
    dictGet? (batches.foldl (fun acc b => match b.featureWeights with
      | none => acc
      | some ws => ws.foldl (fun m' nv => fwAdd m' nv.1 nv.2) acc) m) n
      = if batches.filterMap (fun b => batchWeightOf b n) = [] then dictGet? m n
        else some (((dictGet? m n).getD [])
          ++ batches.filterMap (fun b => batchWeightOf b n)) := by
  induction batches generalizing m with
  | nil => simp
  | cons b bs ih =>
    have hstep := fwBatchStep_get b (hnodup b (List.mem_cons_self b bs)) m n
    rw [List.foldl_cons,
      ih (fun b2 hb2 => hnodup b2 (List.mem_cons_of_mem b hb2))]
    cases hw : batchWeightOf b n with
    | some w =>
      rw [hw] at hstep
      simp only [List.filterMap_cons, hw]
      rw [hstep]
      by_cases hrest : bs.filterMap (fun b => batchWeightOf b n) = []
      · simp [hrest]
      · simp [hrest]
    | none =>
      rw [hw] at hstep
      simp only [List.filterMap_cons, hw]
      rw [hstep]

theorem length_filterMap_eq_length_filter {α β : Type} (f : α → Option β)
    (l : List α) :
    (l.filterMap f).length = (l.filter (fun x => (f x).isSome)).length := by
  induction l with
  | nil => rfl
  | cons x xs ih =>
    cases h : f x <;> simp [List.filterMap_cons, List.filter_cons, h, ih]

theorem featureWeightStatsList_mem (sqrt : Rat → Rat) (B : Nat)
    (fwl : List (String × List Rat)) (stats : List FWStat)
    (h : featureWeightStatsList sqrt B fwl = .ok stats)
    (n : String) (ws : List Rat) (hmem : (n, ws) ∈ fwl) :
    ∃ s ∈ stats, fwStatOf sqrt B n ws = .ok s := by
  induction fwl generalizing stats with
  | nil => cases hmem
  | cons nws rest ih =>
    rw [featureWeightStatsList] at h
    obtain ⟨s0, hs0, h2⟩ := except_bind_ok _ _ _ h
    obtain ⟨others, hothers, h3⟩ := except_bind_ok _ _ _ h2
    have hstats : stats = s0 :: others := by
      injection h3 with h4
      exact h4.symm
    subst hstats
    rcases List.mem_cons.mp hmem with hc | hc
    · refine ⟨s0, List.mem_cons_self _ _, ?_⟩
      rw [← hc] at hs0
      exact hs0
    · obtain ⟨s, hsmem, hseq⟩ := ih others hothers hc
      exact ⟨s, List.mem_cons_of_mem _ hsmem, hseq⟩

theorem npMean_zeroPad (ws : List Rat) (B : Nat) (hle : ws.length ≤ B) :
    npMean (ws ++ List.replicate (B - ws.length) 0) = ws.sum / (B : Rat) := by
  rw [npMean, List.sum_append, List.sum_replicate, List.length_append,
    List.length_replicate]
  have hB : ws.length + (B - ws.length) = B := Nat.add_sub_cancel' hle
  rw [hB]
  simp

theorem baseGenerateStats_ok {α : Type} (sqrt : Rat → Rat)
    (batches : List (PredBatch α)) (st st' : PredState α)
    (h : baseGenerateStats sqrt batches st = .ok st') :
    ∃ l, featureWeightStatsList sqrt batches.length (featureWeightLists batches)
          = .ok l
      ∧ st' = ⟨st.numClassifications + (batches.map (·.numResults)).sum,
          if ((batches.map (·.groundTruthValues)).filter
              (fun x => !x.isEmpty)).isEmpty then st.groundTruthValues
          else ((batches.map (·.groundTruthValues)).filter
              (fun x => !x.isEmpty)).flatten,
          if ((batches.map (·.predictedValues)).filter
              (fun x => !x.isEmpty)).isEmpty then st.predictedValues
          else ((batches.map (·.predictedValues)).filter
              (fun x => !x.isEmpty)).flatten,
          some (sortDesc l)⟩ := by
  rw [baseGenerateStats] at h
  obtain ⟨l, hl, h2⟩ := except_bind_ok _ _ _ h
  refine ⟨l, hl, ?_⟩
  injection h2 with h3
  exact h3.symm

/-- C3: for every experiment and every feature name n appearing in at least
one batch's feature weights (weight names unique within each batch), the
aggregated statistic for n has: mean equal to the sum of n's observed
weights divided by the total number of batches (zero-fill for batches that
did not use n), count equal to the number of batches that used n, and
standard deviation, min and max computed only over the observed weights. -/
theorem claim_C3_feature_weight_stats {α : Type} (sqrt : Rat → Rat)
    (batches : List (PredBatch α)) (st st' : PredState α) (n : String)
    (hnodup : ∀ b ∈ batches, ∀ ws, b.featureWeights = some ws →
      (ws.map Prod.fst).Nodup)
    (huse : ¬ batches.filterMap (fun b => batchWeightOf b n) = [])
    (h : baseGenerateStats sqrt batches st = .ok st') :
    ∃ fws, st'.featureWeightStatistics = some fws
      ∧ ∃ s ∈ fws, s.name = n
        ∧ s.mean = (batches.filterMap (fun b => batchWeightOf b n)).sum
            / (batches.length : Rat)
        ∧ s.count = (batches.filter (fun b => (batchWeightOf b n).isSome)).length
        ∧ s.std = npStd sqrt (batches.filterMap (fun b => batchWeightOf b n))
        ∧ npMin (batches.filterMap (fun b => batchWeightOf b n)) = .ok s.fmin
        ∧ npMax (batches.filterMap (fun b => batchWeightOf b n)) = .ok s.fmax := by
  obtain ⟨l, hl, hst⟩ := baseGenerateStats_ok sqrt batches st st' h
  subst hst
  refine ⟨sortDesc l, rfl, ?_⟩
  set ws0 := batches.filterMap (fun b => batchWeightOf b n) with hws0
  have hget : dictGet? (featureWeightLists batches) n = some ws0 := by
    rw [featureWeightLists, featureWeightLists_get batches hnodup [] n,
      if_neg huse]
    rfl
  have hmem : (n, ws0) ∈ featureWeightLists batches :=
    dictGet?_mem _ _ _ hget
  obtain ⟨s, hsmem, hseq⟩ :=
    featureWeightStatsList_mem sqrt batches.length _ l hl n ws0 hmem
  have hcount : ws0.length
      = (batches.filter (fun b => (batchWeightOf b n).isSome)).length := by
    rw [hws0, length_filterMap_eq_length_filter]
  have hle : ws0.length ≤ batches.length :=
    hcount ▸ List.length_filter_le _ _
  rw [fwStatOf] at hseq
  have hpad : zeroPad ws0 batches.length
      = .ok (ws0 ++ List.replicate (batches.length - ws0.length) 0) := by
    rw [zeroPad, if_pos hle]
  rw [hpad] at hseq
  simp only [Bind.bind, Except.bind] at hseq
  obtain ⟨mn, hmn, hseq2⟩ := except_bind_ok _ _ _ hseq
  obtain ⟨mx, hmx, hseq3⟩ := except_bind_ok _ _ _ hseq2
  have hs : s = ⟨npMean (ws0 ++ List.replicate (batches.length - ws0.length) 0),
      ws0.length, npStd sqrt ws0, mn, mx, n⟩ := by
    injection hseq3 with h4
    exact h4.symm
  refine ⟨s, (sortDesc_perm l).mem_iff.mpr hsmem, ?_, ?_, ?_, ?_, ?_, ?_⟩
  · rw [hs]
  · rw [hs]
    exact npMean_zeroPad ws0 batches.length hle
  · rw [hs]
    exact hcount
  · rw [hs]
  · rw [hs, hmn]
  · rw [hs, hmx]

def c3Batches : List (PredBatch Rat) :=
  [⟨0, [], [], some [("f1", 4)]⟩, ⟨0, [], [], some [("f1", 6)]⟩,
   ⟨0, [], [], none⟩]

theorem claim_C3_witness :
    (∀ b ∈ c3Batches, ∀ ws, b.featureWeights = some ws →
      (ws.map Prod.fst).Nodup)
    ∧ (¬ c3Batches.filterMap (fun b => batchWeightOf b "f1") = [])
    ∧ (∃ st', baseGenerateStats sqrtModel c3Batches initPredState = .ok st'
      ∧ ∃ fws, st'.featureWeightStatistics = some fws
        ∧ ∃ s ∈ fws, s.name = "f1"
          ∧ s.mean = (c3Batches.filterMap (fun b => batchWeightOf b "f1")).sum
              / (c3Batches.length : Rat)
          ∧ s.count = (c3Batches.filter
              (fun b => (batchWeightOf b "f1").isSome)).length
          ∧ s.std = npStd sqrtModel
              (c3Batches.filterMap (fun b => batchWeightOf b "f1"))
          ∧ npMin (c3Batches.filterMap (fun b => batchWeightOf b "f1"))
              = .ok s.fmin
          ∧ npMax (c3Batches.filterMap (fun b => batchWeightOf b "f1"))
              = .ok s.fmax) :=
  ⟨by
    intro b hb ws hws
    simp [c3Batches] at hb
    rcases hb with hb | hb | hb <;> subst hb
    · injection hws with h2
      subst h2
      decide
    · injection hws with h2
      subst h2
      decide
    · exact Option.noConfusion hws,
   by simp [c3Batches, batchWeightOf, List.filterMap_cons, List.find?],
   ⟨⟨0, [], [], some [⟨10/3, 2, sqrtModel 1, 4, 6, "f1"⟩]⟩,
    by
     simp [baseGenerateStats, featureWeightStatsList, featureWeightLists,
       fwStatOf, fwAdd, dictUpd, c3Batches, sortDesc, insertDesc, zeroPad,
       npMean, npMin, npMax, npStd, initPredState, Bind.bind, Except.bind,
       pure, Pure.pure, Except.pure, sqrtModel]
     norm_num,
    claim_C3_feature_weight_stats sqrtModel c3Batches initPredState
      ⟨0, [], [], some [⟨10/3, 2, sqrtModel 1, 4, 6, "f1"⟩]⟩ "f1"
      (by
        intro b hb ws hws
        simp [c3Batches] at hb
        rcases hb with hb | hb | hb <;> subst hb
        · injection hws with h2
          subst h2
          decide
        · injection hws with h2
          subst h2
          decide
        · exact Option.noConfusion hws)
      (by simp [c3Batches, batchWeightOf, List.filterMap_cons, List.find?])
      (by
       simp [baseGenerateStats, featureWeightStatsList, featureWeightLists,
         fwStatOf, fwAdd, dictUpd, c3Batches, sortDesc, insertDesc, zeroPad,
         npMean, npMin, npMax, npStd, initPredState, Bind.bind, Except.bind,
         pure, Pure.pure, Except.pure, sqrtModel]
       norm_num)⟩⟩

/-- The feature-weight statistics as produced when the dictionary built on
lines 109-118 is iterated in the order given by entries: the loop of line
126 walks the keys of a plain Python 2 dict, and CPython 2.7 yields them in
hash-table slot order, an implementation-defined permutation of the
entries, not necessarily first-discovery order; the program's possible
outputs are exactly the stable-sorted statistics lists obtained from some
permutation of the collected per-feature weight lists. -/
def featureWeightStatsFromOrder (sqrt : Rat → Rat) (B : Nat)
    (entries : List (String × List Rat)) : Except PyErr (List FWStat) :=
  match featureWeightStatsList sqrt B entries with
  | .ok l => .ok (sortDesc l)
  | .error e => .error e

theorem baseGenerateStats_stats_from_insertion_order {α : Type}
    (sqrt : Rat → Rat) (batches : List (PredBatch α)) (st st' : PredState α)
    (h : baseGenerateStats sqrt batches st = .ok st') :
    ∃ fws, st'.featureWeightStatistics = some fws
      ∧ featureWeightStatsFromOrder sqrt batches.length
          (featureWeightLists batches) = .ok fws := by
  obtain ⟨l, hl, hst⟩ := baseGenerateStats_ok sqrt batches st st' h
  subst hst
  exact ⟨sortDesc l, rfl, by rw [featureWeightStatsFromOrder, hl]⟩

/-- One batch discovering feature w1 before w2, both with weight 4, so the
two aggregated means tie.  On a 64-bit CPython 2.7 the string hashes give
hash("w1") mod 8 = 6 and hash("w2") mod 8 = 5, so in the initial 8-slot
dict table w2 occupies a lower slot than w1 and the dict iteration of line
126 visits w2 first although w1 was discovered first (two entries, distinct
slots, no resize). -/
def c4CexBatches : List (PredBatch Rat) :=
  [⟨0, [], [], some [("w1", 4), ("w2", 4)]⟩]

/-- The iteration order CPython 2.7 actually uses for that dictionary: slot
5 before slot 6, i.e. w2 before w1. -/
def c4HashOrder : List (String × List Rat) := [("w2", [4]), ("w1", [4])]

def c4StatW1 : FWStat := ⟨4, 1, 0, 4, 4, "w1"⟩

def c4StatW2 : FWStat := ⟨4, 1, 0, 4, 4, "w2"⟩

/-- C4 counterexample: the dictionary of per-feature weight lists discovers
w1 before w2 (first conjunct), the hash order w2-then-w1 is an admissible
iteration order of that dictionary — it is the order a 64-bit CPython 2.7
actually produces — (second conjunct), and under it the program returns the
two equal-mean statistics with w2 BEFORE w1 (third conjunct), the reverse
of discovery order (their means tie and the names differ, last conjuncts).
So the code does not guarantee that features with equal means appear in the
order they were first discovered: the stable sort preserves the dict's
hash-table iteration order, whatever it is. -/
theorem claim_C4_counterexample :
    featureWeightLists c4CexBatches = [("w1", [4]), ("w2", [4])]
    ∧ List.Perm c4HashOrder (featureWeightLists c4CexBatches)
    ∧ featureWeightStatsFromOrder sqrtModel c4CexBatches.length c4HashOrder
        = .ok [c4StatW2, c4StatW1]
    ∧ c4StatW2.mean = c4StatW1.mean
    ∧ ¬ c4StatW2.name = c4StatW1.name :=
  ⟨by
    simp [featureWeightLists, fwAdd, dictUpd, c4CexBatches],
   by decide,
   by
    simp [featureWeightStatsFromOrder, featureWeightStatsList, fwStatOf,
      c4HashOrder, c4CexBatches, c4StatW1, c4StatW2, sortDesc, insertDesc,
      zeroPad, npMean, npMin, npMax, npStd, Bind.bind, Except.bind, pure,
      Pure.pure, Except.pure, sqrtModel],
   rfl, by decide⟩

/-- C4 as amended: for every iteration order of the per-feature weight-list
dictionary (any permutation of its entries — CPython 2.7 supplies one such
order, its hash-table order, which need not be first-discovery order), the
aggregated feature_weight_statistics list is sorted non-increasing in mean
value, is a permutation of the per-feature statistics, and features with
equal means appear in the dictionary's iteration order (Python's sorted is
stable); when the iteration order is first-discovery order, the result is
exactly what the embedded GenerateStats stores. -/
theorem claim_C4_amended_sorted_stable {α : Type} (sqrt : Rat → Rat)
    (batches : List (PredBatch α)) (entries : List (String × List Rat))
    (l : List FWStat)
    (hperm : List.Perm entries (featureWeightLists batches))
    (hl : featureWeightStatsList sqrt batches.length entries = .ok l) :
    ∃ fws, featureWeightStatsFromOrder sqrt batches.length entries = .ok fws
      ∧ fws.Pairwise (fun a b => b.mean ≤ a.mean)
      ∧ List.Perm fws l
      ∧ (∀ q : Rat, fws.filter (fun s => s.mean = q)
          = l.filter (fun s => s.mean = q))
      ∧ (∀ st st' : PredState α,
          entries = featureWeightLists batches →
          baseGenerateStats sqrt batches st = .ok st' →
          st'.featureWeightStatistics = some fws) := by
  refine ⟨sortDesc l, by rw [featureWeightStatsFromOrder, hl],
    sortDesc_pairwise l, sortDesc_perm l, fun q => filter_sortDesc l q, ?_⟩
  intro st st' hins h
  obtain ⟨l2, hl2, hst⟩ := baseGenerateStats_ok sqrt batches st st' h
  rw [← hins, hl] at hl2
  have hll : l2 = l := by
    injection hl2 with h2
    exact h2.symm
  rw [hst, hll]

theorem claim_C4_witness :
    List.Perm (featureWeightLists c4CexBatches) (featureWeightLists c4CexBatches)
    ∧ featureWeightStatsList sqrtModel c4CexBatches.length
        (featureWeightLists c4CexBatches) = .ok [c4StatW1, c4StatW2]
    ∧ (∃ fws, featureWeightStatsFromOrder sqrtModel c4CexBatches.length
          (featureWeightLists c4CexBatches) = .ok fws
      ∧ fws.Pairwise (fun a b => b.mean ≤ a.mean)
      ∧ List.Perm fws [c4StatW1, c4StatW2]
      ∧ (∀ q : Rat, fws.filter (fun s => s.mean = q)
          = [c4StatW1, c4StatW2].filter (fun s => s.mean = q))
      ∧ (∀ st st' : PredState Rat,
          featureWeightLists c4CexBatches = featureWeightLists c4CexBatches →
          baseGenerateStats sqrtModel c4CexBatches st = .ok st' →
          st'.featureWeightStatistics = some fws)) :=
  ⟨List.Perm.refl _,
   by
    simp [featureWeightStatsList, featureWeightLists, fwStatOf, fwAdd,
      dictUpd, c4CexBatches, c4StatW1, c4StatW2, zeroPad, npMean, npMin,
      npMax, npStd, Bind.bind, Except.bind, pure, Pure.pure, Except.pure,
      sqrtModel],
   claim_C4_amended_sorted_stable sqrtModel c4CexBatches
     (featureWeightLists c4CexBatches) [c4StatW1, c4StatW2]
     (List.Perm.refl _)
     (by
      simp [featureWeightStatsList, featureWeightLists, fwStatOf, fwAdd,
        dictUpd, c4CexBatches, c4StatW1, c4StatW2, zeroPad, npMean, npMin,
        npMax, npStd, Bind.bind, Except.bind, pure, Pure.pure, Except.pure,
        sqrtModel])⟩

/-- The attributes of a regression experiment set by a successful
GenerateStats run. -/
structure RegResult where
  stats : PredState Rat
  stdErr : Rat
  slope : Rat
  intercept : Rat
  pearsonCoeff : Rat
  pearsonPValue : Rat
  pearsonStdErr : Rat
  spearmanCoeff : Rat
  spearmanPValue : Rat
deriving DecidableEq

/-- Sum of squared residuals between the aggregated ground-truth and
predicted value lists (lines 719-724). -/
def regErrSum (st : PredState Rat) : Rat :=
  ((st.groundTruthValues.zip st.predictedValues).map
    (fun gp => (gp.1 - gp.2) ^ 2)).sum

/-- FeatureSpaceRegressionExperiment.GenerateStats (lines 710-743): the
base-class aggregation runs first and keeps accumulating
num_classifications, the RMS standard error divides the summed squared
residuals by num_classifications (ZeroDivisionError when zero), linregress
runs, and a FloatingPointError raised by spearmanr is caught and replaced by
the fallback (0, 1); any other oracle error propagates.  scipy's linregress
and spearmanr are external collaborators abstracted as oracles; numpy's
same-shape requirement on the two arrays is modelled as a ValueError on
mismatched lengths (length-1 broadcasting is not modelled; no claim reaches
it). -/
def regGenerateStats (sqrt : Rat → Rat)
    (linregress : List Rat → List Rat → Except PyErr (Rat × Rat × Rat × Rat × Rat))
    (spearmanr : List Rat → List Rat → Except PyErr (Rat × Rat))
    (batches : List (PredBatch Rat)) (st : PredState Rat) :
    Except PyErr RegResult := do
  let base ← baseGenerateStats sqrt batches st
  if ¬ base.groundTruthValues.length = base.predictedValues.length then
    .error .valueError
  else if base.numClassifications = 0 then .error .zeroDivisionError
  else
    let stdErr := sqrt (regErrSum base / (base.numClassifications : Rat))
    let lr ← linregress base.groundTruthValues base.predictedValues
    match spearmanr base.groundTruthValues base.predictedValues with
    | .ok sp =>
        .ok ⟨base, stdErr, lr.1, lr.2.1, lr.2.2.1, lr.2.2.2.1, lr.2.2.2.2,
          sp.1, sp.2⟩
    | .error .floatingPointError =>
        .ok ⟨base, stdErr, lr.1, lr.2.1, lr.2.2.1, lr.2.2.2.1, lr.2.2.2.2,
          0, 1⟩
    | .error e => .error e

/-- C8: for every regression experiment, when the Spearman rank-correlation
computation on the aggregated value lists is numerically degenerate (the
oracle raises FloatingPointError, as scipy does on constant input under
numpy's raise-mode error state), GenerateStats sets the Spearman coefficient
and p-value to (0, 1) and returns normally; the degeneracy is never
propagated to the caller. -/
theorem claim_C8_spearman_fallback (sqrt : Rat → Rat)
    (linregress : List Rat → List Rat → Except PyErr (Rat × Rat × Rat × Rat × Rat))
    (spearmanr : List Rat → List Rat → Except PyErr (Rat × Rat))
    (batches : List (PredBatch Rat)) (st : PredState Rat)
    (base : PredState Rat) (lr : Rat × Rat × Rat × Rat × Rat)
    (hbase : baseGenerateStats sqrt batches st = .ok base)
    (hlen : base.groundTruthValues.length = base.predictedValues.length)
    (hn : ¬ base.numClassifications = 0)
    (hlr : linregress base.groundTruthValues base.predictedValues = .ok lr)
    (hsp : spearmanr base.groundTruthValues base.predictedValues
      = .error .floatingPointError) :
    regGenerateStats sqrt linregress spearmanr batches st
      = .ok ⟨base, sqrt (regErrSum base / (base.numClassifications : Rat)),
          lr.1, lr.2.1, lr.2.2.1, lr.2.2.2.1, lr.2.2.2.2, 0, 1⟩ := by
  rw [regGenerateStats, hbase]
  simp only [Bind.bind, Except.bind]
  rw [if_neg (not_not_intro hlen), if_neg hn, hlr]
  simp only [Except.bind]
  rw [hsp]

def lrStub : List Rat → List Rat → Except PyErr (Rat × Rat × Rat × Rat × Rat) :=
  fun _ _ => .ok (0, 0, 0, 0, 0)

def spStubErr : List Rat → List Rat → Except PyErr (Rat × Rat) :=
  fun _ _ => .error .floatingPointError

def c8Batches : List (PredBatch Rat) := [⟨1, [1, 2], [1, 1], none⟩]

def c8Base : PredState Rat := ⟨1, [1, 2], [1, 1], some []⟩

theorem claim_C8_witness :
    baseGenerateStats sqrtModel c8Batches initPredState = .ok c8Base
    ∧ c8Base.groundTruthValues.length = c8Base.predictedValues.length
    ∧ (¬ c8Base.numClassifications = 0)
    ∧ lrStub c8Base.groundTruthValues c8Base.predictedValues = .ok (0, 0, 0, 0, 0)
    ∧ spStubErr c8Base.groundTruthValues c8Base.predictedValues
        = .error .floatingPointError
    ∧ regGenerateStats sqrtModel lrStub spStubErr c8Batches initPredState
        = .ok ⟨c8Base,
            sqrtModel (regErrSum c8Base / (c8Base.numClassifications : Rat)),
            0, 0, 0, 0, 0, 0, 1⟩ :=
  ⟨by
    simp [baseGenerateStats, featureWeightStatsList, featureWeightLists,
      c8Batches, c8Base, sortDesc, initPredState, Bind.bind, Except.bind,
      pure, Pure.pure, Except.pure],
   rfl, by decide, rfl, rfl,
   claim_C8_spearman_fallback sqrtModel lrStub spStubErr c8Batches
     initPredState c8Base (0, 0, 0, 0, 0)
     (by
      simp [baseGenerateStats, featureWeightStatsList, featureWeightLists,
        c8Batches, c8Base, sortDesc, initPredState, Bind.bind, Except.bind,
        pure, Pure.pure, Except.pure])
     rfl (by decide) rfl rfl⟩

theorem regGenerateStats_ok (sqrt : Rat → Rat)
    (linregress : List Rat → List Rat → Except PyErr (Rat × Rat × Rat × Rat × Rat))
    (spearmanr : List Rat → List Rat → Except PyErr (Rat × Rat))
    (batches : List (PredBatch Rat)) (st : PredState Rat) (r : RegResult)
    (h : regGenerateStats sqrt linregress spearmanr batches st = .ok r) :
    ∃ base, baseGenerateStats sqrt batches st = .ok base
      ∧ (¬ base.numClassifications = 0)
      ∧ r.stats = base
      ∧ r.stdErr = sqrt (regErrSum base / (base.numClassifications : Rat)) := by
  rw [regGenerateStats] at h
  cases hbase : baseGenerateStats sqrt batches st with
  | error e =>
    rw [hbase] at h
    simp [Bind.bind, Except.bind] at h
  | ok base =>
    rw [hbase] at h
    simp only [Bind.bind, Except.bind] at h
    by_cases hlen : base.groundTruthValues.length = base.predictedValues.length
    · rw [if_neg (not_not_intro hlen)] at h
      by_cases hn : base.numClassifications = 0
      · rw [if_pos hn] at h
        exact absurd h (by simp)
      · rw [if_neg hn] at h
        refine ⟨base, rfl, hn, ?_, ?_⟩ <;>
        · cases hlr : linregress base.groundTruthValues base.predictedValues with
          | error e =>
            rw [hlr] at h
            simp [Except.bind] at h
          | ok lr =>
            rw [hlr] at h
            simp only [Except.bind] at h
            cases hsp : spearmanr base.groundTruthValues base.predictedValues with
            | ok sp =>
              rw [hsp] at h
              injection h with h2
              rw [← h2]
            | error e =>
              rw [hsp] at h
              cases e with
              | zeroDivisionError => simp at h
              | valueError => simp at h
              | floatingPointError =>
                injection h with h2
                rw [← h2]
    · rw [if_pos hlen] at h
      exact absurd h (by simp)

def spStubOk : List Rat → List Rat → Except PyErr (Rat × Rat) :=
  fun _ _ => .ok (0, 0)

def c9CexBatches : List (PredBatch Rat) := [⟨1, [1], [1], none⟩]

def c9CexR1 : RegResult := ⟨⟨1, [1], [1], some []⟩, 0, 0, 0, 0, 0, 0, 0, 0⟩

def c9CexR2 : RegResult := ⟨⟨2, [1], [1], some []⟩, 0, 0, 0, 0, 0, 0, 0, 0⟩

/-- C9 counterexample: a regression experiment of one batch with one sample
whose prediction equals the ground truth.  Calling GenerateStats twice does
double num_classifications (1 then 2), but the reported RMS std_err does NOT
change: the summed squared residuals are zero, so std_err is sqrt 0 = 0 both
times.  This refutes the claim's assertion that a second call (always)
changes the reported std_err. -/
theorem claim_C9_counterexample :
    regGenerateStats sqrtModel lrStub spStubOk c9CexBatches initPredState
        = .ok c9CexR1
    ∧ regGenerateStats sqrtModel lrStub spStubOk c9CexBatches c9CexR1.stats
        = .ok c9CexR2
    ∧ c9CexR2.stats.numClassifications
        = 2 * (c9CexBatches.map (·.numResults)).sum
    ∧ c9CexR2.stdErr = c9CexR1.stdErr :=
  ⟨by
    simp [regGenerateStats, baseGenerateStats, featureWeightStatsList,
      featureWeightLists, regErrSum, c9CexBatches, c9CexR1, sortDesc,
      initPredState, Bind.bind, Except.bind, pure, Pure.pure, Except.pure,
      lrStub, spStubOk, sqrtModel],
   by
    simp [regGenerateStats, baseGenerateStats, featureWeightStatsList,
      featureWeightLists, regErrSum, c9CexBatches, c9CexR1, c9CexR2, sortDesc,
      Bind.bind, Except.bind, pure, Pure.pure, Except.pure,
      lrStub, spStubOk, sqrtModel],
   by decide, rfl⟩

/-- C9 as amended: the base-class GenerateStats accumulates into
num_classifications without resetting it, so for a regression experiment
with an unchanged batch list totalling m effective results, calling
GenerateStats twice from a fresh experiment leaves num_classifications equal
to 2·m, and it changes the reported RMS std_err whenever the aggregated sum
of squared residuals is nonzero (with a zero residual sum std_err stays
sqrt 0 unchanged); GenerateStats is therefore not idempotent for regression
experiments, while the classification subclass resets the counter and
reports the same num_classifications on both calls.  The square root is any
injective function, as the real square root is on nonnegatives. -/
theorem claim_C9_amended_accumulation (sqrt : Rat → Rat)
    (linregress : List Rat → List Rat → Except PyErr (Rat × Rat × Rat × Rat × Rat))
    (spearmanr : List Rat → List Rat → Except PyErr (Rat × Rat))
    (hinj : ∀ x y : Rat, sqrt x = sqrt y → x = y)
    (batches : List (PredBatch Rat)) (r₁ r₂ : RegResult)
    (h₁ : regGenerateStats sqrt linregress spearmanr batches initPredState
      = .ok r₁)
    (h₂ : regGenerateStats sqrt linregress spearmanr batches r₁.stats = .ok r₂)
    (hE : ¬ regErrSum r₁.stats = 0)
    (expC : ClassifExperiment) (c₁ c₂ : ClassifResult)
    (hc₁ : classifGenerateStats sqrt expC initPredState = .ok c₁)
    (hc₂ : classifGenerateStats sqrt expC c₁.stats = .ok c₂) :
    r₂.stats.numClassifications = 2 * (batches.map (·.numResults)).sum
    ∧ (¬ r₂.stdErr = r₁.stdErr)
    ∧ c₂.stats.numClassifications = c₁.stats.numClassifications := by
  obtain ⟨base₁, hbase₁, hn₁, hr₁stats, hr₁std⟩ :=
    regGenerateStats_ok sqrt linregress spearmanr batches initPredState r₁ h₁
  obtain ⟨base₂, hbase₂, hn₂, hr₂stats, hr₂std⟩ :=
    regGenerateStats_ok sqrt linregress spearmanr batches r₁.stats r₂ h₂
  obtain ⟨l₁, hl₁, hb₁eq⟩ := baseGenerateStats_ok sqrt batches initPredState base₁ hbase₁
  obtain ⟨l₂, hl₂, hb₂eq⟩ := baseGenerateStats_ok sqrt batches r₁.stats base₂ hbase₂
  set m := (batches.map (·.numResults)).sum with hm
  have hnum₁ : base₁.numClassifications = m := by
    rw [hb₁eq]
    simp [initPredState]
  have hnum₂ : base₂.numClassifications = 2 * m := by
    rw [hb₂eq]
    simp [hr₁stats, hnum₁]
    omega
  have hm0 : ¬ m = 0 := fun h0 => hn₁ (by rw [hnum₁, h0])
  have hgt : base₂.groundTruthValues = base₁.groundTruthValues := by
    rw [hb₂eq, hb₁eq]
    simp only [hr₁stats, hb₁eq]
    by_cases hemp : ((batches.map (·.groundTruthValues)).filter
        (fun x => !x.isEmpty)).isEmpty <;> simp [hemp, initPredState]
  have hpv : base₂.predictedValues = base₁.predictedValues := by
    rw [hb₂eq, hb₁eq]
    simp only [hr₁stats, hb₁eq]
    by_cases hemp : ((batches.map (·.predictedValues)).filter
        (fun x => !x.isEmpty)).isEmpty <;> simp [hemp, initPredState]
  have hEeq : regErrSum base₂ = regErrSum base₁ := by
    rw [regErrSum, regErrSum, hgt, hpv]
  have hE₁ : ¬ regErrSum base₁ = 0 := by
    rw [hr₁stats] at hE
    exact hE
  refine ⟨by rw [hr₂stats, hnum₂], ?_, ?_⟩
  · rw [hr₂std, hr₁std, hEeq, hnum₁, hnum₂]
    intro hcontra
    have hdiv := hinj _ _ hcontra
    have hmq : ((m : Rat)) ≠ 0 := Nat.cast_ne_zero.mpr hm0
    have h2mq : ((2 * m : Nat) : Rat) ≠ 0 := Nat.cast_ne_zero.mpr (by omega)
    rw [div_eq_div_iff h2mq hmq] at hdiv
    have hcancel : regErrSum base₁ * ((m : Rat)) = 0 := by
      push_cast at hdiv
      linarith [hdiv]
    rcases mul_eq_zero.mp hcancel with hz | hz
    · exact hE₁ hz
    · exact hmq hz
  · obtain ⟨b₁, a₁, s₁, hB₁, hA₁, hS₁, hz₁, hcr₁⟩ :=
      classifGenerateStats_ok sqrt expC initPredState c₁ hc₁
    obtain ⟨b₂, a₂, s₂, hB₂, hA₂, hS₂, hz₂, hcr₂⟩ :=
      classifGenerateStats_ok sqrt expC c₁.stats c₂ hc₂
    rw [hcr₁, hcr₂]

def c9Batches : List (PredBatch Rat) := [⟨1, [1], [0], none⟩]

def c9R1 : RegResult := ⟨⟨1, [1], [0], some []⟩, 1, 0, 0, 0, 0, 0, 0, 0⟩

def c9R2 : RegResult := ⟨⟨2, [1], [0], some []⟩, 1/2, 0, 0, 0, 0, 0, 0, 0⟩

def c9ClassifSample : SampleC := ⟨"p.tif", "a", "a", [1], 1, 0⟩

def c9ExpC : ClassifExperiment :=
  ⟨["a"], ["a"], [⟨[c9ClassifSample], fun _ _ => 1, [], [], none⟩]⟩

def c9C1 : ClassifResult :=
  ⟨⟨1, [], [], some []⟩, [(("a", "a"), 1)], 1, [("a", 1)], [("a", 1)],
   [(("a", "a"), 1)], some [(("a", "a"), 1)], 1⟩

theorem claim_C9_witness :
    (∀ x y : Rat, sqrtModel x = sqrtModel y → x = y)
    ∧ regGenerateStats sqrtModel lrStub spStubOk c9Batches initPredState
        = .ok c9R1
    ∧ regGenerateStats sqrtModel lrStub spStubOk c9Batches c9R1.stats = .ok c9R2
    ∧ (¬ regErrSum c9R1.stats = 0)
    ∧ classifGenerateStats sqrtModel c9ExpC initPredState = .ok c9C1
    ∧ classifGenerateStats sqrtModel c9ExpC c9C1.stats = .ok c9C1
    ∧ (c9R2.stats.numClassifications
          = 2 * (c9Batches.map (·.numResults)).sum
       ∧ (¬ c9R2.stdErr = c9R1.stdErr)
       ∧ c9C1.stats.numClassifications = c9C1.stats.numClassifications) :=
  ⟨fun _ _ h => h,
   by
    simp [regGenerateStats, baseGenerateStats, featureWeightStatsList,
      featureWeightLists, regErrSum, c9Batches, c9R1, sortDesc, initPredState,
      Bind.bind, Except.bind, pure, Pure.pure, Except.pure, lrStub, spStubOk,
      sqrtModel],
   by
    simp [regGenerateStats, baseGenerateStats, featureWeightStatsList,
      featureWeightLists, regErrSum, c9Batches, c9R1, c9R2, sortDesc,
      Bind.bind, Except.bind, pure, Pure.pure, Except.pure, lrStub, spStubOk,
      sqrtModel],
   by
    simp [regErrSum, c9R1],
   by
    simp [classifGenerateStats, baseGenerateStats, featureWeightStatsList,
      featureWeightLists, classifAccumulate, aggBatch, aggCell, sampleCount,
      finalizeAvgProb, similarityPhase, simRow, qmTouchGet, dictUpd, dictGet?,
      listProd, initAggState, initPredState, c9ExpC, c9ClassifSample, c9C1,
      sqrtModel, Bind.bind, Except.bind, sortDesc, insertDesc, zeroPad,
      npMean, npMin, npMax, npStd, ClassifBatch.toPredBatch, List.foldlM,
      pure, Pure.pure, Except.pure],
   by
    simp [classifGenerateStats, baseGenerateStats, featureWeightStatsList,
      featureWeightLists, classifAccumulate, aggBatch, aggCell, sampleCount,
      finalizeAvgProb, similarityPhase, simRow, qmTouchGet, dictUpd, dictGet?,
      listProd, initAggState, initPredState, c9ExpC, c9ClassifSample, c9C1,
      sqrtModel, Bind.bind, Except.bind, sortDesc, insertDesc, zeroPad,
      npMean, npMin, npMax, npStd, ClassifBatch.toPredBatch, List.foldlM,
      pure, Pure.pure, Except.pure],
   claim_C9_amended_accumulation sqrtModel lrStub spStubOk (fun _ _ h => h)
     c9Batches c9R1 c9R2
     (by
      simp [regGenerateStats, baseGenerateStats, featureWeightStatsList,
        featureWeightLists, regErrSum, c9Batches, c9R1, sortDesc,
        initPredState, Bind.bind, Except.bind, pure, Pure.pure, Except.pure,
        lrStub, spStubOk, sqrtModel])
     (by
      simp [regGenerateStats, baseGenerateStats, featureWeightStatsList,
        featureWeightLists, regErrSum, c9Batches, c9R1, c9R2, sortDesc,
        Bind.bind, Except.bind, pure, Pure.pure, Except.pure, lrStub,
        spStubOk, sqrtModel])
     (by
      simp [regErrSum, c9R1])
     c9ExpC c9C1 c9C1
     (by
      simp [classifGenerateStats, baseGenerateStats, featureWeightStatsList,
        featureWeightLists, classifAccumulate, aggBatch, aggCell, sampleCount,
        finalizeAvgProb, similarityPhase, simRow, qmTouchGet, dictUpd,
        dictGet?, listProd, initAggState, initPredState, c9ExpC,
        c9ClassifSample, c9C1, sqrtModel, Bind.bind, Except.bind, sortDesc,
        insertDesc, zeroPad, npMean, npMin, npMax, npStd,
        ClassifBatch.toPredBatch, List.foldlM, pure, Pure.pure, Except.pure])
     (by
      simp [classifGenerateStats, baseGenerateStats, featureWeightStatsList,
        featureWeightLists, classifAccumulate, aggBatch, aggCell, sampleCount,
        finalizeAvgProb, similarityPhase, simRow, qmTouchGet, dictUpd,
        dictGet?, listProd, initAggState, initPredState, c9ExpC,
        c9ClassifSample, c9C1, sqrtModel, Bind.bind, Except.bind, sortDesc,
        insertDesc, zeroPad, npMean, npMin, npMax, npStd,
        ClassifBatch.toPredBatch, List.foldlM, pure, Pure.pure, Except.pure])⟩

/-- The 95 percent normal quantile z = 1.95996 of line 441, exactly. -/
def zQuantile : Rat := 195996 / 100000

/-- z squared = 3.84144 of line 442, exactly. -/
def zSquared : Rat := 384144 / 100000

/-- Outcome of the confidence-interval computation in
FeatureSpaceClassificationExperiment.Print: which branch was used, the
accuracy figure displayed, and the half-width of the interval. -/
structure CIResult where
  usedNormal : Bool
  displayAccuracy : Rat
  interval : Rat
deriving DecidableEq

/-- The error-bar computation of Print (lines 436-467, the use_error_bars
path): the normal approximation of the binomial interval when n·acc > 5 and
n·(1−acc) > 5, else the Wilson score interval. -/
def confidenceInterval (sqrt : Rat → Rat) (n acc : Rat) : CIResult :=
  if 5 < n * acc ∧ 5 < n * (1 - acc) then
    let stdErrorOfMean := sqrt (acc * (1 - acc) / n)
    ⟨true, acc, zQuantile * stdErrorOfMean⟩
  else
    let coeff := 1 / (1 + zSquared / n)
    let rawAcc := acc
    let acc2 := coeff * (rawAcc + zSquared / (2 * n))
    ⟨false, acc2,
      coeff * zQuantile * sqrt (rawAcc * (1 - rawAcc) / n + zSquared / (4 * n ^ 2))⟩

/-- C6: when confidence-interval reporting is enabled, the 95 percent
interval uses the normal approximation (stderr = sqrt(acc·(1−acc)/n),
interval = 1.95996·stderr) if and only if n·acc > 5 and n·(1−acc) > 5, and
otherwise the Wilson score interval with z² = 3.84144; in particular for
n = 8 and acc = 0.9 the Wilson branch is taken, not the normal
approximation. -/
theorem claim_C6_ci_branch (sqrt : Rat → Rat) (n acc : Rat) :
    ((confidenceInterval sqrt n acc).usedNormal = true
      ↔ (5 < n * acc ∧ 5 < n * (1 - acc)))
    ∧ (5 < n * acc → 5 < n * (1 - acc) →
        (confidenceInterval sqrt n acc).interval
          = zQuantile * sqrt (acc * (1 - acc) / n))
    ∧ (confidenceInterval sqrt 8 (9/10)).usedNormal = false := by
  refine ⟨?_, ?_, ?_⟩
  · by_cases h : 5 < n * acc ∧ 5 < n * (1 - acc) <;>
      simp [confidenceInterval, h]
  · intro h1 h2
    rw [confidenceInterval, if_pos ⟨h1, h2⟩]
  · rw [confidenceInterval, if_neg]
    intro ⟨h1, h2⟩
    norm_num at h2

theorem claim_C6_witness :
    ((5:Rat) < 100 * (1/2) ∧ (5:Rat) < 100 * (1 - 1/2))
    ∧ (confidenceInterval sqrtModel 100 (1/2)).usedNormal = true
    ∧ (confidenceInterval sqrtModel 100 (1/2)).interval
        = zQuantile * sqrtModel ((1/2) * (1 - 1/2) / 100)
    ∧ (confidenceInterval sqrtModel 8 (9/10)).usedNormal = false :=
  ⟨⟨by norm_num, by norm_num⟩,
   (claim_C6_ci_branch sqrtModel 100 (1/2)).1.mpr ⟨by norm_num, by norm_num⟩,
   (claim_C6_ci_branch sqrtModel 100 (1/2)).2.1 (by norm_num) (by norm_num),
   (claim_C6_ci_branch sqrtModel 8 (9/10)).2.2⟩

/-- Python 2 equality between a list value and the integer 0: in Python 2,
values of different non-numeric built-in types never compare equal under ==,
so the comparison is always False, whatever the list holds. -/
def pyListEqInt {α : Type} (xs : List α) (n : Int) : Bool := false

/-- Append a sample result to the per-file accumulation dictionary (lines
625-630). -/
def accAdd (m : List (String × List SampleC)) (s : SampleC) :
    List (String × List SampleC) :=
  dictUpd m s.sourceFilepath [] (fun l => l ++ [s])

/-- Marginal-probability totals of one file's results (lines 634-643):
Python's zip truncates to the shorter list, and a falsy running total (None
or an empty list) is replaced by the next result's list. -/
def mpTotals (results : List SampleC) : List Rat :=
  results.foldl (fun acc s =>
    if acc.isEmpty then s.marginalProbabilities
    else (acc.zip s.marginalProbabilities).map (fun p => p.1 + p.2)) []

/-- Per-file statistics tuple (lines 645-652): evaluation count, fraction of
evaluations matching the ground-truth class name, averaged marginal
probabilities, ground-truth class name. -/
def perFileStats (results : List SampleC) : Nat × Rat × List Rat × String :=
  let gtClass := ((results.head?).map (·.groundTruthClassName)).getD ""
  let vals := results.map (·.predictedClassName)
  (vals.length,
   ((vals.filter (fun v => v = gtClass)).length : Rat) / (vals.length : Rat),
   (mpTotals results).map (fun t => t / (results.length : Rat)),
   gtClass)

/-- FeatureSpaceClassificationExperiment.PerSampleStatistics (lines
611-679): the guard of line 616 compares the batch-results list itself with
the integer 0 using Python ==, which is always False in Python 2, so the
ValueError of line 617 is unreachable; the method then re-keys every sample
result by source file and computes the per-file statistics (the remaining
lines only print them). -/
def perSampleStatisticsC (exp : ClassifExperiment) :
    Except PyErr (List (String × List SampleC)
      × List (String × (Nat × Rat × List Rat × String))) :=
  if pyListEqInt exp.batches 0 then .error .valueError
  else
    let acc := exp.batches.foldl (fun m b => b.samples.foldl accAdd m) []
    .ok (acc, acc.map (fun fv => (fv.1, perFileStats fv.2)))

/-- One regressed sample as read by the regression PerSampleStatistics
(modelled from the spec for SingleSamplePrediction fields). -/
structure SampleR where
  sourceFilepath : String
  groundTruthValue : Rat
  predictedValue : Rat
  batchNumber : Nat
deriving DecidableEq

/-- Per-file statistics of the regression PerSampleStatistics (lines
792-797): count, min, mean, max and standard deviation of each file's
predicted values; numpy raises on an empty array (unreachable from the
accumulation, whose entries are created nonempty). -/
def perFileStatsListR (sqrt : Rat → Rat) :
    List (String × List SampleR)
      → Except PyErr (List (String × (Nat × Rat × Rat × Rat × Rat)))
  | [] => .ok []
  | fv :: rest => do
    let vals := fv.2.map (·.predictedValue)
    let mn ← npMin vals
    let mx ← npMax vals
    let others ← perFileStatsListR sqrt rest
    .ok ((fv.1, (vals.length, mn, npMean vals, mx, npStd sqrt vals)) :: others)

/-- FeatureSpaceRegressionExperiment.PerSampleStatistics (lines 771-819):
the guard of line 776 has the same always-False comparison of a list with
the integer 0, so its ValueError is unreachable too. -/
def perSampleStatisticsR (sqrt : Rat → Rat)
    (batchResults : List (List SampleR)) :
    Except PyErr (List (String × List SampleR)
      × List (String × (Nat × Rat × Rat × Rat × Rat))) :=
  if pyListEqInt batchResults 0 then .error .valueError
  else do
    let acc := batchResults.foldl (fun m rs => rs.foldl (fun m' s =>
      dictUpd m' s.sourceFilepath [] (fun l => l ++ [s])) m) []
    let stats ← perFileStatsListR sqrt acc
    .ok (acc, stats)

/-- C7 (code bug): the guard "if self.individual_results == 0" of
PerSampleStatistics (classification line 616, regression line 776) compares
a list with an integer, which is always False in Python 2, so the intended
usage ValueError ("No batch results to analyze") is never raised: on an
experiment with an empty batch list both methods complete normally and
return empty per-sample statistics instead of raising. -/
theorem claim_C7_guard_never_fires :
    (∀ exp : ClassifExperiment, ∃ out, perSampleStatisticsC exp = .ok out)
    ∧ perSampleStatisticsC ⟨["a"], ["a"], []⟩ = .ok ([], [])
    ∧ (∀ sqrt : Rat → Rat, perSampleStatisticsR sqrt [] = .ok ([], [])) :=
  ⟨fun exp => ⟨_, rfl⟩, rfl, fun _ => rfl⟩
